import Mathlib

/-!
Verification development for the claude-code-wrapped repository.

The repository has two pipelines that converge on one aggregation contract:

* the live-log pipeline (`claudeCodeParser.js`, shipped in this repository as the
  unnamed source file): `parseSessionFile` reads newline-delimited event records,
  `analyzeSession` reduces one event list to a per-session statistics record and
  `aggregateStats` folds the records into cumulative totals;
* the recorded-sessions pipeline (`src/models/WrappedData.js`): `updateStats`
  folds manually recorded session summaries, `calculateDerivedStats` computes
  top projects and streaks.

This file shallowly embeds those functions.  JavaScript `Set` objects are
modelled as insertion-ordered duplicate-free lists (`jsAdd`), JavaScript
objects used as counters as insertion-ordered association lists (`bump`),
the JavaScript value `undefined` as `Option.none`, timestamps as integer
milliseconds, and `Math.floor` of a real quotient as `Int.fdiv`.  `Date
.prototype.getHours` depends on the host timezone, so the embeddings take the
UTC offset in milliseconds as an explicit `tz` parameter.
-/

namespace Wrapped

/-- Model of `Set.prototype.add`: a JavaScript `Set` is an insertion-ordered
list without duplicates, and `add` appends the element when it is missing. -/
def jsAdd {α : Type} [DecidableEq α] (l : List α) (a : α) : List α :=
  if a ∈ l then l else l ++ [a]

/-- Model of the JavaScript counter-object update `h[k] = (h[k] || 0) + n`:
update the entry of an existing key in place (preserving key insertion order,
as JavaScript objects do) or append a fresh key at the end. -/
def bump {κ : Type} [DecidableEq κ] : List (κ × Nat) → κ → Nat → List (κ × Nat)
  | [], k, n => [(k, n)]
  | p :: t, k, n => if p.1 = k then (p.1, p.2 + n) :: t else p :: bump t k n

/-- Model of the JavaScript counter-object read `h[k] || 0`. -/
def lookupCount {κ : Type} [DecidableEq κ] : List (κ × Nat) → κ → Nat
  | [], _ => 0
  | p :: t, k => if p.1 = k then p.2 else lookupCount t k

/-- Total weight a single histogram (association list) carries for a key;
used to describe what merging that histogram adds to an accumulator. -/
def keySum {κ : Type} [DecidableEq κ] (l : List (κ × Nat)) (k : κ) : Nat :=
  ((l.filter (fun p => p.1 = k)).map (fun p => p.2)).sum

/-- A JavaScript collection that is either still a `Set` or has been converted
to an array by `Array.from`; `analyzeSession` returns the former for empty
input (early return) and the latter otherwise. -/
inductive JsColl (α : Type) where
  | set (elems : List α)
  | arr (elems : List α)
deriving Repr, DecidableEq

/-- Underlying element list of a collection, in insertion order. -/
def JsColl.elems {α : Type} : JsColl α → List α
  | .set l => l
  | .arr l => l

/-- Model of `.add` on the collection (only ever used while it is a set). -/
def JsColl.add {α : Type} [DecidableEq α] : JsColl α → α → JsColl α
  | .set l, a => .set (jsAdd l a)
  | .arr l, a => .arr (jsAdd l a)

/-- Model of `Array.from`, which preserves a `Set`'s insertion order. -/
def JsColl.toArr {α : Type} : JsColl α → JsColl α
  | .set l => .arr l
  | .arr l => .arr l

/-- Whether the collection has been converted to an array. -/
def JsColl.isArr {α : Type} : JsColl α → Bool
  | .set _ => false
  | .arr _ => true

/-- The `input` mapping of a `tool_use` content item; absent fields are
`none` (JavaScript `undefined`). -/
structure ToolInput where
  file_path : Option String
  command : Option String
deriving Repr, DecidableEq

/-- One entry of `message.content`: a tagged union dispatching on `type`
(`tool_use`, `thinking`, anything else is ignored). -/
structure ContentItem where
  type : String
  name : String
  input : Option ToolInput
deriving Repr, DecidableEq

/-- The `toolUseResult` payload of an event. -/
structure ToolUseResult where
  type : String
  filePath : Option String
deriving Repr, DecidableEq

/-- One entry of a per-session JSONL log, as read by `analyzeSession`.
`message` is `some items` exactly when the event has a `message.content`
array; timestamps are integer milliseconds since the epoch. -/
structure RawEvent where
  type : String
  userType : Option String
  message : Option (List ContentItem)
  toolUseResult : Option ToolUseResult
  timestamp : Int
  sessionId : Option String
  cwd : Option String
  gitBranch : Option String
deriving Repr, DecidableEq

/-- Split a character list at every occurrence of `sep`, keeping empty
segments — the semantics of JavaScript `String.prototype.split` with a
single-character separator. -/
def splitChar (sep : Char) : List Char → List (List Char)
  | [] => [[]]
  | c :: t =>
    let r := splitChar sep t
    if c = sep then [] :: r
    else
      match r with
      | h :: t2 => (c :: h) :: t2
      | [] => [[c]]

/-- Model of Node's `path.extname(p).substring(1)`: the extension of the last
path component without its dot, and the empty string when there is no
extension (including the dot-file case where the only dot is the first
character of the base name). -/
def extOf (p : String) : String :=
  let base := (splitChar '/' p.data).getLastD p.data
  match splitChar '.' base with
  | [] => ""
  | [_] => ""
  | s :: rest => if s = [] ∧ rest.length = 1 then "" else String.mk (rest.getLastD [])

/-- The fixed extension-to-language table (`langMap` in `analyzeSession`);
unknown extensions contribute nothing. -/
def langMap : String → Option String
  | "js" => some "JavaScript"
  | "ts" => some "TypeScript"
  | "tsx" => some "TypeScript"
  | "jsx" => some "JavaScript"
  | "py" => some "Python"
  | "go" => some "Go"
  | "rs" => some "Rust"
  | "java" => some "Java"
  | "cpp" => some "C++"
  | "c" => some "C"
  | "rb" => some "Ruby"
  | "php" => some "PHP"
  | "swift" => some "Swift"
  | "kt" => some "Kotlin"
  | "cs" => some "C#"
  | "html" => some "HTML"
  | "css" => some "CSS"
  | "sh" => some "Shell"
  | "bash" => some "Shell"
  | "sql" => some "SQL"
  | "json" => some "JSON"
  | "yaml" => some "YAML"
  | "yml" => some "YAML"
  | "md" => some "Markdown"
  | _ => none

/-- Per-session statistics record built by `analyzeSession`.  File sets may
contain `none`: the source adds `item.input.file_path` to `filesModified`
even when that field is `undefined`. -/
structure SessionStats where
  sessionId : Option String
  project : Option String
  startTime : Option Int
  endTime : Option Int
  duration : Int
  messageCount : Nat
  userMessages : Nat
  assistantMessages : Nat
  toolCalls : List String
  toolUsage : List (String × Nat)
  filesAccessed : JsColl (Option String)
  filesModified : JsColl (Option String)
  filesCreated : JsColl (Option String)
  bashCommands : List String
  gitBranch : Option String
  languages : JsColl String
  thinkingBlocks : Nat
deriving Repr, DecidableEq

/-- The statistics record as initialised at the top of `analyzeSession`. -/
def initialStats : SessionStats where
  sessionId := none
  project := none
  startTime := none
  endTime := none
  duration := 0
  messageCount := 0
  userMessages := 0
  assistantMessages := 0
  toolCalls := []
  toolUsage := []
  filesAccessed := .set []
  filesModified := .set []
  filesCreated := .set []
  bashCommands := []
  gitBranch := none
  languages := .set []
  thinkingBlocks := 0

/-- The body of the content-item loop of `analyzeSession`, written field by
field: each field receives exactly the value the source's sequence of guarded
mutations leaves it with.  Guards follow JavaScript truthiness: a string
tests false exactly when it is empty, an absent field (`none`) tests
false, and a present object (`some`) tests true. -/
def processItem (s : SessionStats) (item : ContentItem) : SessionStats :=
  { s with
    toolCalls := if item.type = "tool_use" then s.toolCalls ++ [item.name] else s.toolCalls
    toolUsage := if item.type = "tool_use" then bump s.toolUsage item.name 1 else s.toolUsage
    filesAccessed :=
      if item.type = "tool_use" then
        match item.input with
        | some inp =>
          match inp.file_path with
          | some p => if p = "" then s.filesAccessed else s.filesAccessed.add (some p)
          | none => s.filesAccessed
        | none => s.filesAccessed
      else s.filesAccessed
    languages :=
      if item.type = "tool_use" then
        match item.input with
        | some inp =>
          match inp.file_path with
          | some p =>
            if p = "" then s.languages
            else
              match langMap (extOf p) with
              | some lang => s.languages.add lang
              | none => s.languages
          | none => s.languages
        | none => s.languages
      else s.languages
    filesModified :=
      if item.type = "tool_use" then
        match item.input with
        | some inp =>
          if item.name = "Write" ∨ item.name = "Edit" then s.filesModified.add inp.file_path
          else s.filesModified
        | none => s.filesModified
      else s.filesModified
    bashCommands :=
      if item.type = "tool_use" then
        match item.input with
        | some inp =>
          match inp.command with
          | some c => if item.name = "Bash" ∧ c ≠ "" then s.bashCommands ++ [c] else s.bashCommands
          | none => s.bashCommands
        | none => s.bashCommands
      else s.bashCommands
    thinkingBlocks := if item.type = "thinking" then s.thinkingBlocks + 1 else s.thinkingBlocks }

/-- The message-counting step at the top of the event loop: external user
messages and assistant messages are counted, everything else is not. -/
def countMessages (s : SessionStats) (ev : RawEvent) : SessionStats :=
  if ev.type = "user" ∧ ev.userType = some "external" then
    { s with userMessages := s.userMessages + 1, messageCount := s.messageCount + 1 }
  else if ev.type = "assistant" then
    { s with assistantMessages := s.assistantMessages + 1, messageCount := s.messageCount + 1 }
  else s

/-- The content walk of the event loop: items are processed in order when the
event has a `message.content` array. -/
def applyContent (s : SessionStats) (ev : RawEvent) : SessionStats :=
  match ev.message with
  | some items => items.foldl processItem s
  | none => s

/-- The `toolUseResult` check at the bottom of the event loop: a result of
type `write` adds its `filePath` (possibly `undefined`) to `filesCreated`. -/
def applyToolResult (s : SessionStats) (ev : RawEvent) : SessionStats :=
  match ev.toolUseResult with
  | some r =>
    if r.type = "write" then { s with filesCreated := s.filesCreated.add r.filePath } else s
  | none => s

/-- The body of the event loop of `analyzeSession`: message counting, then
the content-item walk, then the `toolUseResult` file-creation check. -/
def processEvent (s : SessionStats) (ev : RawEvent) : SessionStats :=
  applyToolResult (applyContent (countMessages s ev) ev) ev

/-- The statistics record after the header assignments of `analyzeSession`
on non-empty input: identity fields from the first event, `endTime` from the
last event, and `duration = Math.floor((end - start) / 1000 / 60)` (no
clamping). -/
def seedStats (e0 : RawEvent) (rest : List RawEvent) : SessionStats :=
  { initialStats with
    sessionId := e0.sessionId
    project := e0.cwd
    gitBranch := e0.gitBranch
    startTime := some e0.timestamp
    endTime := some (rest.getLastD e0).timestamp
    duration := Int.fdiv ((rest.getLastD e0).timestamp - e0.timestamp) 60000 }

/-- Model of `analyzeSession`: empty input returns the initial record (sets
still sets, by the early return); otherwise the header fields are assigned,
the event loop runs, and the four set fields are converted to arrays. -/
def analyzeSession : List RawEvent → SessionStats
  | [] => initialStats
  | e0 :: rest =>
    let s := (e0 :: rest).foldl processEvent (seedStats e0 rest)
    { s with
      filesAccessed := s.filesAccessed.toArr
      filesModified := s.filesModified.toArr
      filesCreated := s.filesCreated.toArr
      languages := s.languages.toArr }

/-- Milliseconds per calendar day (`1000 * 60 * 60 * 24` in the source). -/
def msPerDay : Int := 86400000

/-- Milliseconds per hour. -/
def msPerHour : Int := 3600000

/-- Model of `date.toISOString().split('T')[0]` on a millisecond timestamp:
the UTC calendar date, encoded as days since the epoch (a bijective renaming
of the ISO date string the source uses as object key). -/
def dayKey (t : Int) : Int := Int.fdiv t msPerDay

/-- Model of `new Date(t).getHours()`: the hour of day in the host timezone,
whose UTC offset in milliseconds is the explicit parameter `tz`. -/
def hourKey (tz t : Int) : Int := Int.fdiv (t + tz) msPerHour % 24

/-- Fold `jsAdd` over a list, i.e. `l.forEach(x => set.add(x))`. -/
def jsAddAll {α : Type} [DecidableEq α] (acc l : List α) : List α :=
  l.foldl jsAdd acc

/-- Merge a histogram into an accumulator, i.e. the source's
`for (const [k, n] of Object.entries(h)) acc[k] = (acc[k] || 0) + n`. -/
def mergeHist {κ : Type} [DecidableEq κ] (acc l : List (κ × Nat)) : List (κ × Nat) :=
  l.foldl (fun a p => bump a p.1 p.2) acc

/-- Increment a histogram once per list element, i.e. the source's
`l.forEach(k => acc[k] = (acc[k] || 0) + 1)`. -/
def bumpEach {κ : Type} [DecidableEq κ] (acc : List (κ × Nat)) (l : List κ) : List (κ × Nat) :=
  l.foldl (fun a k => bump a k 1) acc

/-- The mutable accumulator object of `aggregateStats` while the fold runs:
the three file totals and the branch set are still JavaScript `Set`s. -/
structure AggAcc where
  totalMessages : Nat
  totalUserMessages : Nat
  totalAssistantMessages : Nat
  totalDuration : Int
  totalThinkingBlocks : Nat
  totalFilesAccessed : List (Option String)
  totalFilesModified : List (Option String)
  totalFilesCreated : List (Option String)
  toolUsage : List (String × Nat)
  languageStats : List (String × Nat)
  projectStats : List (String × Nat)
  dailyActivity : List (Int × Nat)
  hourlyActivity : List (Int × Nat)
  gitBranches : List String
deriving Repr, DecidableEq

/-- The accumulator as initialised at the top of `aggregateStats`. -/
def initialAgg : AggAcc where
  totalMessages := 0
  totalUserMessages := 0
  totalAssistantMessages := 0
  totalDuration := 0
  totalThinkingBlocks := 0
  totalFilesAccessed := []
  totalFilesModified := []
  totalFilesCreated := []
  toolUsage := []
  languageStats := []
  projectStats := []
  dailyActivity := []
  hourlyActivity := []
  gitBranches := []

/-- The body of the session loop of `aggregateStats`, written field by field:
each field receives the value the source's guarded mutations leave it with.
Truthiness guards on `project` and `gitBranch` follow JavaScript string
truthiness (absent or empty tests false). -/
def aggStep (tz : Int) (a : AggAcc) (s : SessionStats) : AggAcc where
  totalMessages := a.totalMessages + s.messageCount
  totalUserMessages := a.totalUserMessages + s.userMessages
  totalAssistantMessages := a.totalAssistantMessages + s.assistantMessages
  totalDuration := a.totalDuration + s.duration
  totalThinkingBlocks := a.totalThinkingBlocks + s.thinkingBlocks
  totalFilesAccessed := jsAddAll a.totalFilesAccessed s.filesAccessed.elems
  totalFilesModified := jsAddAll a.totalFilesModified s.filesModified.elems
  totalFilesCreated := jsAddAll a.totalFilesCreated s.filesCreated.elems
  toolUsage := mergeHist a.toolUsage s.toolUsage
  languageStats := bumpEach a.languageStats s.languages.elems
  projectStats :=
    match s.project with
    | some p => if p = "" then a.projectStats else bump a.projectStats p 1
    | none => a.projectStats
  dailyActivity :=
    match s.startTime with
    | some t => bump a.dailyActivity (dayKey t) 1
    | none => a.dailyActivity
  hourlyActivity :=
    match s.startTime with
    | some t => bump a.hourlyActivity (hourKey tz t) 1
    | none => a.hourlyActivity
  gitBranches :=
    match s.gitBranch with
    | some b => if b = "" then a.gitBranches else jsAdd a.gitBranches b
    | none => a.gitBranches

/-- The cumulative statistics object `aggregateStats` returns after the fold,
with the set-valued fields collapsed to their sizes. -/
structure AggregatedStats where
  totalSessions : Nat
  totalMessages : Nat
  totalUserMessages : Nat
  totalAssistantMessages : Nat
  totalDuration : Int
  totalThinkingBlocks : Nat
  totalFilesAccessed : Nat
  totalFilesModified : Nat
  totalFilesCreated : Nat
  toolUsage : List (String × Nat)
  languageStats : List (String × Nat)
  projectStats : List (String × Nat)
  dailyActivity : List (Int × Nat)
  hourlyActivity : List (Int × Nat)
  totalGitBranches : Nat
deriving Repr, DecidableEq

/-- Model of `aggregateStats` (live-log pipeline): one left fold of `aggStep`
over the sessions, then the sets are collapsed to counts (`Set.size` is the
length of the duplicate-free insertion-order list). -/
def aggregateStats (tz : Int) (sessions : List SessionStats) : AggregatedStats :=
  let a := sessions.foldl (aggStep tz) initialAgg
  { totalSessions := sessions.length
    totalMessages := a.totalMessages
    totalUserMessages := a.totalUserMessages
    totalAssistantMessages := a.totalAssistantMessages
    totalDuration := a.totalDuration
    totalThinkingBlocks := a.totalThinkingBlocks
    totalFilesAccessed := a.totalFilesAccessed.length
    totalFilesModified := a.totalFilesModified.length
    totalFilesCreated := a.totalFilesCreated.length
    toolUsage := a.toolUsage
    languageStats := a.languageStats
    projectStats := a.projectStats
    dailyActivity := a.dailyActivity
    hourlyActivity := a.hourlyActivity
    totalGitBranches := a.gitBranches.length }

/-- One recorded session summary as consumed by `WrappedData.updateStats`;
every field the method guards on is optional. -/
structure WDSession where
  messageCount : Option Nat
  filesModified : Option (List String)
  filesCreated : Option (List String)
  linesAdded : Option Nat
  linesRemoved : Option Nat
  toolCalls : Option (List String)
  languages : Option (List String)
  project : Option String
  date : Option String
  timestamp : Option Int
deriving Repr, DecidableEq

/-- The aggregate-relevant part of `WrappedData.stats`. -/
structure WDStats where
  totalSessions : Nat
  totalMessages : Nat
  totalFilesModified : Nat
  totalFilesCreated : Nat
  totalLinesAdded : Nat
  totalLinesRemoved : Nat
  totalToolCalls : Nat
  toolUsage : List (String × Nat)
  languageStats : List (String × Nat)
  projectStats : List (String × Nat)
  dailyActivity : List (String × Nat)
  hourlyActivity : List (Int × Nat)
deriving Repr, DecidableEq

/-- `WrappedData.stats` as initialised in the constructor. -/
def initialWD : WDStats where
  totalSessions := 0
  totalMessages := 0
  totalFilesModified := 0
  totalFilesCreated := 0
  totalLinesAdded := 0
  totalLinesRemoved := 0
  totalToolCalls := 0
  toolUsage := []
  languageStats := []
  projectStats := []
  dailyActivity := []
  hourlyActivity := []

/-- Model of `session.date.split('T')[0]`. -/
def dayOfDate (d : String) : String := String.mk ((splitChar 'T' d.data).headD [])

/-- Model of `WrappedData.updateStats` (recorded-sessions pipeline), written
field by field.  Note that `totalFilesModified` and `totalFilesCreated` add
the LENGTH of the per-session array (`session.filesModified?.length || 0`),
not the size of a union of sets. -/
def updateStats (tz : Int) (w : WDStats) (s : WDSession) : WDStats where
  totalSessions := w.totalSessions + 1
  totalMessages := w.totalMessages + s.messageCount.getD 0
  totalFilesModified := w.totalFilesModified + (s.filesModified.map List.length).getD 0
  totalFilesCreated := w.totalFilesCreated + (s.filesCreated.map List.length).getD 0
  totalLinesAdded := w.totalLinesAdded + s.linesAdded.getD 0
  totalLinesRemoved := w.totalLinesRemoved + s.linesRemoved.getD 0
  totalToolCalls := w.totalToolCalls + (s.toolCalls.map List.length).getD 0
  toolUsage :=
    match s.toolCalls with
    | some tc => bumpEach w.toolUsage tc
    | none => w.toolUsage
  languageStats :=
    match s.languages with
    | some ls => bumpEach w.languageStats ls
    | none => w.languageStats
  projectStats :=
    match s.project with
    | some p => if p = "" then w.projectStats else bump w.projectStats p 1
    | none => w.projectStats
  dailyActivity :=
    match s.date with
    | some d => if d = "" then w.dailyActivity else bump w.dailyActivity (dayOfDate d) 1
    | none => w.dailyActivity
  hourlyActivity :=
    match s.timestamp with
    | some t => bump w.hourlyActivity (hourKey tz t) 1
    | none => w.hourlyActivity

/-- The consecutive-date-pair loop shared by both `calculateStreaks`
implementations.  Dates are calendar days (the sorted, duplicate-free key
list of `dailyActivity`); the source computes the day difference as
`Math.floor((currDate - prevDate) / 86400000)` on midnight-aligned
millisecond values, embedded here as `Int.fdiv` on `day * msPerDay`. -/
def streakLoop : List Int → Int → Int → Int → Int × Int
  | [], _, longest, temp => (longest, temp)
  | d :: rest, prev, longest, temp =>
    let diffDays := Int.fdiv (d * msPerDay - prev * msPerDay) msPerDay
    if diffDays = 1 then streakLoop rest d longest (temp + 1)
    else streakLoop rest d (max longest temp) 1

/-- Model of `WrappedData.calculateStreaks`.  `dates` is the sorted key list
of `dailyActivity` (ISO date keys sort lexicographically exactly in calendar
order); `nowMs` is the millisecond value of `new Date()`.  On empty input the
method returns early, leaving the constructor-initialised zeros.  The local
variable `currentStreak` is initialised to `1` and only overwritten when
`daysSinceLastActivity <= 1`, so the inactive branch yields `1`. -/
def calculateStreaksWD (dates : List Int) (nowMs : Int) : Int × Int :=
  match dates with
  | [] => (0, 0)
  | d :: rest =>
    let lt := streakLoop rest d 1 1
    let longestStreak := max lt.1 lt.2
    let lastDate := rest.getLastD d
    let daysSinceLastActivity := Int.fdiv (nowMs - lastDate * msPerDay) msPerDay
    (longestStreak, if daysSinceLastActivity ≤ 1 then lt.2 else 1)

/-- Model of `RealWrappedGenerator.calculateStreaks` (realWrapped.js): the
same walk, but `currentStreak` starts at `0`, so the inactive branch yields
`0`. -/
def calculateStreaksRW (dates : List Int) (nowMs : Int) : Int × Int :=
  match dates with
  | [] => (0, 0)
  | d :: rest =>
    let lt := streakLoop rest d 1 1
    let longestStreak := max lt.1 lt.2
    let lastDate := rest.getLastD d
    let daysSinceLastActivity := Int.fdiv (nowMs - lastDate * msPerDay) msPerDay
    (longestStreak, if daysSinceLastActivity ≤ 1 then lt.2 else 0)

/-- Stable descending insertion by count: the element is placed before the
first entry whose count is less than or equal to its own, so earlier entries
win ties. -/
def insertByCount (x : String × Nat) : List (String × Nat) → List (String × Nat)
  | [] => [x]
  | y :: ys => if y.2 ≤ x.2 then x :: y :: ys else y :: insertByCount x ys

/-- Model of `Object.entries(projectStats).sort((a, b) => b[1] - a[1])`:
JavaScript `Array.prototype.sort` is specified to be stable, and a stable
sort by count descending is uniquely determined by being a permutation,
sorted and tie-stable — all three are proved below, so this insertion sort
is extensionally the source's sort. -/
def sortByCountDesc (l : List (String × Nat)) : List (String × Nat) :=
  l.foldr insertByCount []

/-- Model of the top-projects computation shared verbatim by
`WrappedData.calculateDerivedStats` and
`RealWrappedGenerator.calculateDerivedStats`: sort entries by count
descending (stable) and keep the first five. -/
def topProjects (ps : List (String × Nat)) : List (String × Nat) :=
  (sortByCountDesc ps).take 5

/-- Whether a log line survives the `if (line.trim())` check: true when it
has at least one non-whitespace character. -/
def lineNonBlank (l : String) : Bool := l.data.any (fun c => !c.isWhitespace)

/-- Model of `parseSessionFile`: the file content is represented by its list
of newline-separated lines; blank lines are skipped; each remaining line goes
through `JSON.parse` — a platform primitive, abstracted as the `parse`
parameter — and lines on which it throws are skipped with a warning while
every successfully parsed line contributes its event, in order. -/
def parseSessionFile (parse : String → Option RawEvent) (lines : List String) : List RawEvent :=
  (lines.filter (fun l => lineNonBlank l)).filterMap parse

/-- Union of a list of lists viewed as sets — the specification-side
description of the aggregated file totals (spec: size of the union of the
per-session sets), to be compared with the `jsAdd` fold the source runs. -/
def unionF {α : Type} [DecidableEq α] (ls : List (List α)) : Finset α :=
  ls.foldr (fun l t => l.toFinset ∪ t) ∅

/-- Sum of the per-session set sizes, the bound the spec compares the
aggregated totals against. -/
def setCardSum {α : Type} [DecidableEq α] (ls : List (List α)) : Nat :=
  (ls.map (fun l => l.toFinset.card)).sum

/-- What one session contributes to the aggregated `gitBranches` set:
nothing unless the branch is present and non-empty. -/
def branchList (s : SessionStats) : List String :=
  match s.gitBranch with
  | some b => if b = "" then [] else [b]
  | none => []

/-- What one session contributes to `projectStats` keys. -/
def projList (s : SessionStats) : List String :=
  match s.project with
  | some p => if p = "" then [] else [p]
  | none => []

/-- What one session contributes to `dailyActivity` keys. -/
def dayList (s : SessionStats) : List Int :=
  match s.startTime with
  | some t => [dayKey t]
  | none => []

/-- What one session contributes to `hourlyActivity` keys. -/
def hourList (tz : Int) (s : SessionStats) : List Int :=
  match s.startTime with
  | some t => [hourKey tz t]
  | none => []

/-- What one recorded session contributes to the recorded-pipeline
`projectStats` keys. -/
def projListWD (s : WDSession) : List String :=
  match s.project with
  | some p => if p = "" then [] else [p]
  | none => []

/-- What one recorded session contributes to the recorded-pipeline
`dailyActivity` keys. -/
def dateListWD (s : WDSession) : List String :=
  match s.date with
  | some d => if d = "" then [] else [dayOfDate d]
  | none => []

/-- What one recorded session contributes to the recorded-pipeline
`hourlyActivity` keys. -/
def hourListWD (tz : Int) (s : WDSession) : List Int :=
  match s.timestamp with
  | some t => [hourKey tz t]
  | none => []

/-- Agreement of two aggregated-statistics objects in the sense of the
order-independence claim: equal scalar totals, equal set-based counts, and
equal histogram mappings read as key-to-count functions (their key insertion
order is allowed to differ). -/
def aggAgrees (A B : AggregatedStats) : Prop :=
  A.totalSessions = B.totalSessions ∧
  A.totalMessages = B.totalMessages ∧
  A.totalUserMessages = B.totalUserMessages ∧
  A.totalAssistantMessages = B.totalAssistantMessages ∧
  A.totalDuration = B.totalDuration ∧
  A.totalThinkingBlocks = B.totalThinkingBlocks ∧
  A.totalFilesAccessed = B.totalFilesAccessed ∧
  A.totalFilesModified = B.totalFilesModified ∧
  A.totalFilesCreated = B.totalFilesCreated ∧
  A.totalGitBranches = B.totalGitBranches ∧
  (∀ q, lookupCount A.toolUsage q = lookupCount B.toolUsage q) ∧
  (∀ q, lookupCount A.languageStats q = lookupCount B.languageStats q) ∧
  (∀ q, lookupCount A.projectStats q = lookupCount B.projectStats q) ∧
  (∀ q, lookupCount A.dailyActivity q = lookupCount B.dailyActivity q) ∧
  (∀ q, lookupCount A.hourlyActivity q = lookupCount B.hourlyActivity q)

/-- Agreement of two recorded-pipeline statistics objects: equal scalar
totals and equal histogram mappings as key-to-count functions. -/
def wdAgrees (A B : WDStats) : Prop :=
  A.totalSessions = B.totalSessions ∧
  A.totalMessages = B.totalMessages ∧
  A.totalFilesModified = B.totalFilesModified ∧
  A.totalFilesCreated = B.totalFilesCreated ∧
  A.totalLinesAdded = B.totalLinesAdded ∧
  A.totalLinesRemoved = B.totalLinesRemoved ∧
  A.totalToolCalls = B.totalToolCalls ∧
  (∀ q, lookupCount A.toolUsage q = lookupCount B.toolUsage q) ∧
  (∀ q, lookupCount A.languageStats q = lookupCount B.languageStats q) ∧
  (∀ q, lookupCount A.projectStats q = lookupCount B.projectStats q) ∧
  (∀ q, lookupCount A.dailyActivity q = lookupCount B.dailyActivity q) ∧
  (∀ q, lookupCount A.hourlyActivity q = lookupCount B.hourlyActivity q)

/-!
Lemmas about the JavaScript `Set` model.
-/

theorem mem_jsAdd {α : Type} [DecidableEq α] (l : List α) (a b : α) :
    b ∈ jsAdd l a ↔ b = a ∨ b ∈ l := by
  unfold jsAdd
  split
  · constructor
    · exact fun h => Or.inr h
    · rintro (rfl | h) <;> assumption
  · simp [or_comm]

theorem jsAdd_nodup {α : Type} [DecidableEq α] {l : List α} (h : l.Nodup) (a : α) :
    (jsAdd l a).Nodup := by
  unfold jsAdd
  split
  · exact h
  · simp_all [List.nodup_append]

theorem jsAdd_toFinset {α : Type} [DecidableEq α] (l : List α) (a : α) :
    (jsAdd l a).toFinset = insert a l.toFinset := by
  unfold jsAdd
  split
  · rw [Finset.insert_eq_self.mpr (by simp_all)]
  · simp [List.toFinset_append, Finset.insert_eq, Finset.union_comm]

theorem jsAdd_sub {α : Type} [DecidableEq α] (l : List α) (a : α) : l ⊆ jsAdd l a := by
  intro x hx
  exact (mem_jsAdd l a x).mpr (Or.inr hx)

theorem self_mem_jsAdd {α : Type} [DecidableEq α] (l : List α) (a : α) : a ∈ jsAdd l a :=
  (mem_jsAdd l a a).mpr (Or.inl rfl)

theorem jsAddAll_nodup {α : Type} [DecidableEq α] {acc : List α} (h : acc.Nodup)
    (l : List α) : (jsAddAll acc l).Nodup := by
  induction l generalizing acc with
  | nil => exact h
  | cons x xs ih => exact ih (jsAdd_nodup h x)

theorem jsAddAll_toFinset {α : Type} [DecidableEq α] (acc l : List α) :
    (jsAddAll acc l).toFinset = acc.toFinset ∪ l.toFinset := by
  induction l generalizing acc with
  | nil => simp [jsAddAll]
  | cons x xs ih =>
    have h1 : jsAddAll acc (x :: xs) = jsAddAll (jsAdd acc x) xs := rfl
    rw [h1, ih, jsAdd_toFinset]
    ext b
    simp [or_assoc]

theorem jsAddAll_sub {α : Type} [DecidableEq α] (acc l : List α) : acc ⊆ jsAddAll acc l := by
  induction l generalizing acc with
  | nil => exact fun x hx => hx
  | cons x xs ih => exact fun y hy => ih (jsAdd acc x) (jsAdd_sub acc x hy)

theorem mem_jsAddAll_right {α : Type} [DecidableEq α] (acc l : List α) {x : α}
    (hx : x ∈ l) : x ∈ jsAddAll acc l := by
  induction l generalizing acc with
  | nil => cases hx
  | cons y ys ih =>
    rcases List.mem_cons.mp hx with rfl | h
    · exact jsAddAll_sub (jsAdd acc x) ys (self_mem_jsAdd acc x)
    · exact ih (jsAdd acc y) h

/-!
Lemmas about the counter-object model.
-/

theorem lookupCount_bump {κ : Type} [DecidableEq κ] (h : List (κ × Nat)) (k q : κ) (n : Nat) :
    lookupCount (bump h k n) q = lookupCount h q + (if q = k then n else 0) := by
  induction h with
  | nil => simp [bump, lookupCount, eq_comm]
  | cons p t ih =>
    by_cases hp : p.1 = k
    · by_cases hq : p.1 = q
      · have hqk : q = k := hq.symm.trans hp
        simp [bump, lookupCount, hp, hq, hqk]
      · have hqk : ¬ q = k := fun hh => hq (hp.trans hh.symm)
        have hkq : ¬ k = q := fun hh => hq (hp.trans hh)
        simp [bump, lookupCount, hp, hq, hqk, hkq]
    · by_cases hq : p.1 = q
      · have hqk : ¬ q = k := fun hh => hp (hq.trans hh)
        simp [bump, lookupCount, hp, hq, hqk]
      · simp [bump, lookupCount, hp, hq, ih]

theorem keySum_cons {κ : Type} [DecidableEq κ] (p : κ × Nat) (t : List (κ × Nat)) (q : κ) :
    keySum (p :: t) q = (if p.1 = q then p.2 else 0) + keySum t q := by
  by_cases h : p.1 = q <;> simp [keySum, List.filter_cons, h]

theorem lookupCount_mergeHist {κ : Type} [DecidableEq κ] (acc l : List (κ × Nat)) (q : κ) :
    lookupCount (mergeHist acc l) q = lookupCount acc q + keySum l q := by
  induction l generalizing acc with
  | nil => simp [mergeHist, keySum]
  | cons p t ih =>
    rw [show mergeHist acc (p :: t) = mergeHist (bump acc p.1 p.2) t from rfl, ih,
      lookupCount_bump, keySum_cons]
    by_cases hq : q = p.1
    · simp [hq]
      omega
    · have hpq : ¬ p.1 = q := fun hh => hq hh.symm
      simp [hq, hpq]

theorem lookupCount_bumpEach {κ : Type} [DecidableEq κ] (acc : List (κ × Nat)) (l : List κ)
    (q : κ) : lookupCount (bumpEach acc l) q = lookupCount acc q + l.count q := by
  induction l generalizing acc with
  | nil => simp [bumpEach]
  | cons x t ih =>
    rw [show bumpEach acc (x :: t) = bumpEach (bump acc x 1) t from rfl, ih,
      lookupCount_bump, List.count_cons]
    by_cases hq : q = x
    · simp [hq]
      omega
    · have hxq : ¬ x = q := fun hh => hq hh.symm
      simp [hq, hxq]

/-!
Field equations for one step of the `aggregateStats` fold.
-/

theorem aggStep_totalMessages (tz : Int) (a : AggAcc) (s : SessionStats) :
    (aggStep tz a s).totalMessages = a.totalMessages + s.messageCount := rfl

theorem aggStep_totalUserMessages (tz : Int) (a : AggAcc) (s : SessionStats) :
    (aggStep tz a s).totalUserMessages = a.totalUserMessages + s.userMessages := rfl

theorem aggStep_totalAssistantMessages (tz : Int) (a : AggAcc) (s : SessionStats) :
    (aggStep tz a s).totalAssistantMessages = a.totalAssistantMessages + s.assistantMessages := rfl

theorem aggStep_totalDuration (tz : Int) (a : AggAcc) (s : SessionStats) :
    (aggStep tz a s).totalDuration = a.totalDuration + s.duration := rfl

theorem aggStep_totalThinkingBlocks (tz : Int) (a : AggAcc) (s : SessionStats) :
    (aggStep tz a s).totalThinkingBlocks = a.totalThinkingBlocks + s.thinkingBlocks := rfl

theorem aggStep_totalFilesAccessed (tz : Int) (a : AggAcc) (s : SessionStats) :
    (aggStep tz a s).totalFilesAccessed = jsAddAll a.totalFilesAccessed s.filesAccessed.elems := rfl

theorem aggStep_totalFilesModified (tz : Int) (a : AggAcc) (s : SessionStats) :
    (aggStep tz a s).totalFilesModified = jsAddAll a.totalFilesModified s.filesModified.elems := rfl

theorem aggStep_totalFilesCreated (tz : Int) (a : AggAcc) (s : SessionStats) :
    (aggStep tz a s).totalFilesCreated = jsAddAll a.totalFilesCreated s.filesCreated.elems := rfl

theorem aggStep_toolUsage (tz : Int) (a : AggAcc) (s : SessionStats) :
    (aggStep tz a s).toolUsage = mergeHist a.toolUsage s.toolUsage := rfl

theorem aggStep_languageStats (tz : Int) (a : AggAcc) (s : SessionStats) :
    (aggStep tz a s).languageStats = bumpEach a.languageStats s.languages.elems := rfl

theorem aggStep_projectStats (tz : Int) (a : AggAcc) (s : SessionStats) :
    (aggStep tz a s).projectStats = bumpEach a.projectStats (projList s) := by
  show (match s.project with
    | some p => if p = "" then a.projectStats else bump a.projectStats p 1
    | none => a.projectStats) = bumpEach a.projectStats (projList s)
  unfold projList
  cases s.project with
  | none => rfl
  | some p => by_cases hp : p = "" <;> simp [hp, bumpEach]

theorem aggStep_dailyActivity (tz : Int) (a : AggAcc) (s : SessionStats) :
    (aggStep tz a s).dailyActivity = bumpEach a.dailyActivity (dayList s) := by
  show (match s.startTime with
    | some t => bump a.dailyActivity (dayKey t) 1
    | none => a.dailyActivity) = bumpEach a.dailyActivity (dayList s)
  unfold dayList
  cases s.startTime <;> simp [bumpEach]

theorem aggStep_hourlyActivity (tz : Int) (a : AggAcc) (s : SessionStats) :
    (aggStep tz a s).hourlyActivity = bumpEach a.hourlyActivity (hourList tz s) := by
  show (match s.startTime with
    | some t => bump a.hourlyActivity (hourKey tz t) 1
    | none => a.hourlyActivity) = bumpEach a.hourlyActivity (hourList tz s)
  unfold hourList
  cases s.startTime <;> simp [bumpEach]

theorem aggStep_gitBranches (tz : Int) (a : AggAcc) (s : SessionStats) :
    (aggStep tz a s).gitBranches = jsAddAll a.gitBranches (branchList s) := by
  show (match s.gitBranch with
    | some b => if b = "" then a.gitBranches else jsAdd a.gitBranches b
    | none => a.gitBranches) = jsAddAll a.gitBranches (branchList s)
  unfold branchList
  cases s.gitBranch with
  | none => rfl
  | some b => by_cases hb : b = "" <;> simp [hb, jsAddAll]

/-!
Canonical forms of the `aggregateStats` fold, field by field.
-/

theorem agg_fold_totalMessages (tz : Int) (ss : List SessionStats) (a : AggAcc) :
    (ss.foldl (aggStep tz) a).totalMessages
      = a.totalMessages + (ss.map (fun s => s.messageCount)).sum := by
  induction ss generalizing a with
  | nil => simp
  | cons s t ih =>
    rw [List.foldl_cons, ih, aggStep_totalMessages, List.map_cons, List.sum_cons]
    omega

theorem agg_fold_totalUserMessages (tz : Int) (ss : List SessionStats) (a : AggAcc) :
    (ss.foldl (aggStep tz) a).totalUserMessages
      = a.totalUserMessages + (ss.map (fun s => s.userMessages)).sum := by
  induction ss generalizing a with
  | nil => simp
  | cons s t ih =>
    rw [List.foldl_cons, ih, aggStep_totalUserMessages, List.map_cons, List.sum_cons]
    omega

theorem agg_fold_totalAssistantMessages (tz : Int) (ss : List SessionStats) (a : AggAcc) :
    (ss.foldl (aggStep tz) a).totalAssistantMessages
      = a.totalAssistantMessages + (ss.map (fun s => s.assistantMessages)).sum := by
  induction ss generalizing a with
  | nil => simp
  | cons s t ih =>
    rw [List.foldl_cons, ih, aggStep_totalAssistantMessages, List.map_cons, List.sum_cons]
    omega

theorem agg_fold_totalDuration (tz : Int) (ss : List SessionStats) (a : AggAcc) :
    (ss.foldl (aggStep tz) a).totalDuration
      = a.totalDuration + (ss.map (fun s => s.duration)).sum := by
  induction ss generalizing a with
  | nil => simp
  | cons s t ih =>
    rw [List.foldl_cons, ih, aggStep_totalDuration, List.map_cons, List.sum_cons]
    omega

theorem agg_fold_totalThinkingBlocks (tz : Int) (ss : List SessionStats) (a : AggAcc) :
    (ss.foldl (aggStep tz) a).totalThinkingBlocks
      = a.totalThinkingBlocks + (ss.map (fun s => s.thinkingBlocks)).sum := by
  induction ss generalizing a with
  | nil => simp
  | cons s t ih =>
    rw [List.foldl_cons, ih, aggStep_totalThinkingBlocks, List.map_cons, List.sum_cons]
    omega

theorem unionF_cons {a : Type} [DecidableEq a] (l : List a) (ls : List (List a)) :
    unionF (l :: ls) = l.toFinset ∪ unionF ls := rfl

theorem agg_fold_filesAccessed (tz : Int) (ss : List SessionStats) (a : AggAcc) :
    ((ss.foldl (aggStep tz) a).totalFilesAccessed).toFinset
      = a.totalFilesAccessed.toFinset ∪ unionF (ss.map (fun s => s.filesAccessed.elems)) := by
  induction ss generalizing a with
  | nil => simp [unionF]
  | cons s t ih =>
    rw [List.foldl_cons, ih, aggStep_totalFilesAccessed, jsAddAll_toFinset, List.map_cons,
      unionF_cons, Finset.union_assoc]

theorem agg_fold_filesModified (tz : Int) (ss : List SessionStats) (a : AggAcc) :
    ((ss.foldl (aggStep tz) a).totalFilesModified).toFinset
      = a.totalFilesModified.toFinset ∪ unionF (ss.map (fun s => s.filesModified.elems)) := by
  induction ss generalizing a with
  | nil => simp [unionF]
  | cons s t ih =>
    rw [List.foldl_cons, ih, aggStep_totalFilesModified, jsAddAll_toFinset, List.map_cons,
      unionF_cons, Finset.union_assoc]

theorem agg_fold_filesCreated (tz : Int) (ss : List SessionStats) (a : AggAcc) :
    ((ss.foldl (aggStep tz) a).totalFilesCreated).toFinset
      = a.totalFilesCreated.toFinset ∪ unionF (ss.map (fun s => s.filesCreated.elems)) := by
  induction ss generalizing a with
  | nil => simp [unionF]
  | cons s t ih =>
    rw [List.foldl_cons, ih, aggStep_totalFilesCreated, jsAddAll_toFinset, List.map_cons,
      unionF_cons, Finset.union_assoc]

theorem agg_fold_gitBranches (tz : Int) (ss : List SessionStats) (a : AggAcc) :
    ((ss.foldl (aggStep tz) a).gitBranches).toFinset
      = a.gitBranches.toFinset ∪ unionF (ss.map branchList) := by
  induction ss generalizing a with
  | nil => simp [unionF]
  | cons s t ih =>
    rw [List.foldl_cons, ih, aggStep_gitBranches, jsAddAll_toFinset, List.map_cons,
      unionF_cons, Finset.union_assoc]

theorem agg_fold_filesAccessed_nodup (tz : Int) (ss : List SessionStats) (a : AggAcc)
    (h : a.totalFilesAccessed.Nodup) : ((ss.foldl (aggStep tz) a).totalFilesAccessed).Nodup := by
  induction ss generalizing a with
  | nil => exact h
  | cons s t ih =>
    rw [List.foldl_cons]
    exact ih _ (by rw [aggStep_totalFilesAccessed]; exact jsAddAll_nodup h _)

theorem agg_fold_filesModified_nodup (tz : Int) (ss : List SessionStats) (a : AggAcc)
    (h : a.totalFilesModified.Nodup) : ((ss.foldl (aggStep tz) a).totalFilesModified).Nodup := by
  induction ss generalizing a with
  | nil => exact h
  | cons s t ih =>
    rw [List.foldl_cons]
    exact ih _ (by rw [aggStep_totalFilesModified]; exact jsAddAll_nodup h _)

theorem agg_fold_filesCreated_nodup (tz : Int) (ss : List SessionStats) (a : AggAcc)
    (h : a.totalFilesCreated.Nodup) : ((ss.foldl (aggStep tz) a).totalFilesCreated).Nodup := by
  induction ss generalizing a with
  | nil => exact h
  | cons s t ih =>
    rw [List.foldl_cons]
    exact ih _ (by rw [aggStep_totalFilesCreated]; exact jsAddAll_nodup h _)

theorem agg_fold_gitBranches_nodup (tz : Int) (ss : List SessionStats) (a : AggAcc)
    (h : a.gitBranches.Nodup) : ((ss.foldl (aggStep tz) a).gitBranches).Nodup := by
  induction ss generalizing a with
  | nil => exact h
  | cons s t ih =>
    rw [List.foldl_cons]
    exact ih _ (by rw [aggStep_gitBranches]; exact jsAddAll_nodup h _)

theorem agg_fold_toolUsage (tz : Int) (ss : List SessionStats) (a : AggAcc) (q : String) :
    lookupCount ((ss.foldl (aggStep tz) a).toolUsage) q
      = lookupCount a.toolUsage q + (ss.map (fun s => keySum s.toolUsage q)).sum := by
  induction ss generalizing a with
  | nil => simp
  | cons s t ih =>
    rw [List.foldl_cons, ih, aggStep_toolUsage, lookupCount_mergeHist, List.map_cons,
      List.sum_cons]
    omega

theorem agg_fold_languageStats (tz : Int) (ss : List SessionStats) (a : AggAcc) (q : String) :
    lookupCount ((ss.foldl (aggStep tz) a).languageStats) q
      = lookupCount a.languageStats q + (ss.map (fun s => s.languages.elems.count q)).sum := by
  induction ss generalizing a with
  | nil => simp
  | cons s t ih =>
    rw [List.foldl_cons, ih, aggStep_languageStats, lookupCount_bumpEach, List.map_cons,
      List.sum_cons]
    omega

theorem agg_fold_projectStats (tz : Int) (ss : List SessionStats) (a : AggAcc) (q : String) :
    lookupCount ((ss.foldl (aggStep tz) a).projectStats) q
      = lookupCount a.projectStats q + (ss.map (fun s => (projList s).count q)).sum := by
  induction ss generalizing a with
  | nil => simp
  | cons s t ih =>
    rw [List.foldl_cons, ih, aggStep_projectStats, lookupCount_bumpEach, List.map_cons,
      List.sum_cons]
    omega

theorem agg_fold_dailyActivity (tz : Int) (ss : List SessionStats) (a : AggAcc) (q : Int) :
    lookupCount ((ss.foldl (aggStep tz) a).dailyActivity) q
      = lookupCount a.dailyActivity q + (ss.map (fun s => (dayList s).count q)).sum := by
  induction ss generalizing a with
  | nil => simp
  | cons s t ih =>
    rw [List.foldl_cons, ih, aggStep_dailyActivity, lookupCount_bumpEach, List.map_cons,
      List.sum_cons]
    omega

theorem agg_fold_hourlyActivity (tz : Int) (ss : List SessionStats) (a : AggAcc) (q : Int) :
    lookupCount ((ss.foldl (aggStep tz) a).hourlyActivity) q
      = lookupCount a.hourlyActivity q + (ss.map (fun s => (hourList tz s).count q)).sum := by
  induction ss generalizing a with
  | nil => simp
  | cons s t ih =>
    rw [List.foldl_cons, ih, aggStep_hourlyActivity, lookupCount_bumpEach, List.map_cons,
      List.sum_cons]
    omega

/-!
Field equations for one step of the recorded-sessions fold
(`WrappedData.updateStats`), and its canonical forms.
-/

theorem updateStats_totalSessions (tz : Int) (w : WDStats) (s : WDSession) :
    (updateStats tz w s).totalSessions = w.totalSessions + 1 := rfl

theorem updateStats_totalMessages (tz : Int) (w : WDStats) (s : WDSession) :
    (updateStats tz w s).totalMessages = w.totalMessages + s.messageCount.getD 0 := rfl

theorem updateStats_totalFilesModified (tz : Int) (w : WDStats) (s : WDSession) :
    (updateStats tz w s).totalFilesModified
      = w.totalFilesModified + (s.filesModified.map List.length).getD 0 := rfl

theorem updateStats_totalFilesCreated (tz : Int) (w : WDStats) (s : WDSession) :
    (updateStats tz w s).totalFilesCreated
      = w.totalFilesCreated + (s.filesCreated.map List.length).getD 0 := rfl

theorem updateStats_totalLinesAdded (tz : Int) (w : WDStats) (s : WDSession) :
    (updateStats tz w s).totalLinesAdded = w.totalLinesAdded + s.linesAdded.getD 0 := rfl

theorem updateStats_totalLinesRemoved (tz : Int) (w : WDStats) (s : WDSession) :
    (updateStats tz w s).totalLinesRemoved = w.totalLinesRemoved + s.linesRemoved.getD 0 := rfl

theorem updateStats_totalToolCalls (tz : Int) (w : WDStats) (s : WDSession) :
    (updateStats tz w s).totalToolCalls
      = w.totalToolCalls + (s.toolCalls.map List.length).getD 0 := rfl

theorem updateStats_toolUsage (tz : Int) (w : WDStats) (s : WDSession) :
    (updateStats tz w s).toolUsage = bumpEach w.toolUsage (s.toolCalls.getD []) := by
  show (match s.toolCalls with
    | some tc => bumpEach w.toolUsage tc
    | none => w.toolUsage) = bumpEach w.toolUsage (s.toolCalls.getD [])
  cases s.toolCalls <;> simp [bumpEach]

theorem updateStats_languageStats (tz : Int) (w : WDStats) (s : WDSession) :
    (updateStats tz w s).languageStats = bumpEach w.languageStats (s.languages.getD []) := by
  show (match s.languages with
    | some ls => bumpEach w.languageStats ls
    | none => w.languageStats) = bumpEach w.languageStats (s.languages.getD [])
  cases s.languages <;> simp [bumpEach]

theorem updateStats_projectStats (tz : Int) (w : WDStats) (s : WDSession) :
    (updateStats tz w s).projectStats = bumpEach w.projectStats (projListWD s) := by
  show (match s.project with
    | some p => if p = "" then w.projectStats else bump w.projectStats p 1
    | none => w.projectStats) = bumpEach w.projectStats (projListWD s)
  unfold projListWD
  cases s.project with
  | none => rfl
  | some p => by_cases hp : p = "" <;> simp [hp, bumpEach]

theorem updateStats_dailyActivity (tz : Int) (w : WDStats) (s : WDSession) :
    (updateStats tz w s).dailyActivity = bumpEach w.dailyActivity (dateListWD s) := by
  show (match s.date with
    | some d => if d = "" then w.dailyActivity else bump w.dailyActivity (dayOfDate d) 1
    | none => w.dailyActivity) = bumpEach w.dailyActivity (dateListWD s)
  unfold dateListWD
  cases s.date with
  | none => rfl
  | some d => by_cases hd : d = "" <;> simp [hd, bumpEach]

theorem updateStats_hourlyActivity (tz : Int) (w : WDStats) (s : WDSession) :
    (updateStats tz w s).hourlyActivity = bumpEach w.hourlyActivity (hourListWD tz s) := by
  show (match s.timestamp with
    | some t => bump w.hourlyActivity (hourKey tz t) 1
    | none => w.hourlyActivity) = bumpEach w.hourlyActivity (hourListWD tz s)
  unfold hourListWD
  cases s.timestamp <;> simp [bumpEach]

theorem wd_fold_totalSessions (tz : Int) (ws : List WDSession) (w : WDStats) :
    (ws.foldl (updateStats tz) w).totalSessions = w.totalSessions + ws.length := by
  induction ws generalizing w with
  | nil => simp
  | cons s t ih =>
    rw [List.foldl_cons, ih, updateStats_totalSessions, List.length_cons]
    omega

theorem wd_fold_totalMessages (tz : Int) (ws : List WDSession) (w : WDStats) :
    (ws.foldl (updateStats tz) w).totalMessages
      = w.totalMessages + (ws.map (fun s => s.messageCount.getD 0)).sum := by
  induction ws generalizing w with
  | nil => simp
  | cons s t ih =>
    rw [List.foldl_cons, ih, updateStats_totalMessages, List.map_cons, List.sum_cons]
    omega

theorem wd_fold_totalFilesModified (tz : Int) (ws : List WDSession) (w : WDStats) :
    (ws.foldl (updateStats tz) w).totalFilesModified
      = w.totalFilesModified + (ws.map (fun s => (s.filesModified.map List.length).getD 0)).sum := by
  induction ws generalizing w with
  | nil => simp
  | cons s t ih =>
    rw [List.foldl_cons, ih, updateStats_totalFilesModified, List.map_cons, List.sum_cons]
    omega

theorem wd_fold_totalFilesCreated (tz : Int) (ws : List WDSession) (w : WDStats) :
    (ws.foldl (updateStats tz) w).totalFilesCreated
      = w.totalFilesCreated + (ws.map (fun s => (s.filesCreated.map List.length).getD 0)).sum := by
  induction ws generalizing w with
  | nil => simp
  | cons s t ih =>
    rw [List.foldl_cons, ih, updateStats_totalFilesCreated, List.map_cons, List.sum_cons]
    omega

theorem wd_fold_totalLinesAdded (tz : Int) (ws : List WDSession) (w : WDStats) :
    (ws.foldl (updateStats tz) w).totalLinesAdded
      = w.totalLinesAdded + (ws.map (fun s => s.linesAdded.getD 0)).sum := by
  induction ws generalizing w with
  | nil => simp
  | cons s t ih =>
    rw [List.foldl_cons, ih, updateStats_totalLinesAdded, List.map_cons, List.sum_cons]
    omega

theorem wd_fold_totalLinesRemoved (tz : Int) (ws : List WDSession) (w : WDStats) :
    (ws.foldl (updateStats tz) w).totalLinesRemoved
      = w.totalLinesRemoved + (ws.map (fun s => s.linesRemoved.getD 0)).sum := by
  induction ws generalizing w with
  | nil => simp
  | cons s t ih =>
    rw [List.foldl_cons, ih, updateStats_totalLinesRemoved, List.map_cons, List.sum_cons]
    omega

theorem wd_fold_totalToolCalls (tz : Int) (ws : List WDSession) (w : WDStats) :
    (ws.foldl (updateStats tz) w).totalToolCalls
      = w.totalToolCalls + (ws.map (fun s => (s.toolCalls.map List.length).getD 0)).sum := by
  induction ws generalizing w with
  | nil => simp
  | cons s t ih =>
    rw [List.foldl_cons, ih, updateStats_totalToolCalls, List.map_cons, List.sum_cons]
    omega

theorem wd_fold_toolUsage (tz : Int) (ws : List WDSession) (w : WDStats) (q : String) :
    lookupCount ((ws.foldl (updateStats tz) w).toolUsage) q
      = lookupCount w.toolUsage q + (ws.map (fun s => (s.toolCalls.getD []).count q)).sum := by
  induction ws generalizing w with
  | nil => simp
  | cons s t ih =>
    rw [List.foldl_cons, ih, updateStats_toolUsage, lookupCount_bumpEach, List.map_cons,
      List.sum_cons]
    omega

theorem wd_fold_languageStats (tz : Int) (ws : List WDSession) (w : WDStats) (q : String) :
    lookupCount ((ws.foldl (updateStats tz) w).languageStats) q
      = lookupCount w.languageStats q + (ws.map (fun s => (s.languages.getD []).count q)).sum := by
  induction ws generalizing w with
  | nil => simp
  | cons s t ih =>
    rw [List.foldl_cons, ih, updateStats_languageStats, lookupCount_bumpEach, List.map_cons,
      List.sum_cons]
    omega

theorem wd_fold_projectStats (tz : Int) (ws : List WDSession) (w : WDStats) (q : String) :
    lookupCount ((ws.foldl (updateStats tz) w).projectStats) q
      = lookupCount w.projectStats q + (ws.map (fun s => (projListWD s).count q)).sum := by
  induction ws generalizing w with
  | nil => simp
  | cons s t ih =>
    rw [List.foldl_cons, ih, updateStats_projectStats, lookupCount_bumpEach, List.map_cons,
      List.sum_cons]
    omega

theorem wd_fold_dailyActivity (tz : Int) (ws : List WDSession) (w : WDStats) (q : String) :
    lookupCount ((ws.foldl (updateStats tz) w).dailyActivity) q
      = lookupCount w.dailyActivity q + (ws.map (fun s => (dateListWD s).count q)).sum := by
  induction ws generalizing w with
  | nil => simp
  | cons s t ih =>
    rw [List.foldl_cons, ih, updateStats_dailyActivity, lookupCount_bumpEach, List.map_cons,
      List.sum_cons]
    omega

theorem wd_fold_hourlyActivity (tz : Int) (ws : List WDSession) (w : WDStats) (q : Int) :
    lookupCount ((ws.foldl (updateStats tz) w).hourlyActivity) q
      = lookupCount w.hourlyActivity q + (ws.map (fun s => (hourListWD tz s).count q)).sum := by
  induction ws generalizing w with
  | nil => simp
  | cons s t ih =>
    rw [List.foldl_cons, ih, updateStats_hourlyActivity, lookupCount_bumpEach, List.map_cons,
      List.sum_cons]
    omega

/-!
Permutation invariance and cardinality of unions.
-/

theorem unionF_perm {a : Type} [DecidableEq a] {l1 l2 : List (List a)}
    (h : List.Perm l1 l2) : unionF l1 = unionF l2 := by
  induction h with
  | nil => rfl
  | cons x h ih => rw [unionF_cons, unionF_cons, ih]
  | swap x y l => rw [unionF_cons, unionF_cons, unionF_cons, unionF_cons, Finset.union_left_comm]
  | trans h1 h2 ih1 ih2 => exact ih1.trans ih2

theorem setCardSum_cons {a : Type} [DecidableEq a] (l : List a) (t : List (List a)) :
    setCardSum (l :: t) = l.toFinset.card + setCardSum t := by
  simp [setCardSum]

theorem unionF_card_le {a : Type} [DecidableEq a] (ls : List (List a)) :
    (unionF ls).card ≤ setCardSum ls := by
  induction ls with
  | nil => simp [unionF, setCardSum]
  | cons l t ih =>
    rw [unionF_cons, setCardSum_cons]
    have h1 := Finset.card_union_le l.toFinset (unionF t)
    omega

theorem subset_unionF {a : Type} [DecidableEq a] {ls : List (List a)} {l : List a}
    (h : l ∈ ls) : l.toFinset ⊆ unionF ls := by
  induction ls with
  | nil => cases h
  | cons x t ih =>
    rw [unionF_cons]
    rcases List.mem_cons.mp h with rfl | h2
    · exact Finset.subset_union_left
    · exact (ih h2).trans Finset.subset_union_right

theorem unionF_card_lt {a : Type} [DecidableEq a] (pre mid post : List (List a))
    (u v : List a) (x : a) (hxu : x ∈ u) (hxv : x ∈ v) :
    (unionF (pre ++ u :: (mid ++ v :: post))).card
      < setCardSum (pre ++ u :: (mid ++ v :: post)) := by
  induction pre with
  | nil =>
    rw [List.nil_append, unionF_cons, setCardSum_cons]
    have hv : v ∈ mid ++ v :: post := by simp
    have hxU : x ∈ unionF (mid ++ v :: post) :=
      subset_unionF hv (List.mem_toFinset.mpr hxv)
    have hinter : x ∈ u.toFinset ∩ unionF (mid ++ v :: post) :=
      Finset.mem_inter.mpr ⟨List.mem_toFinset.mpr hxu, hxU⟩
    have h1 := Finset.card_union_add_card_inter u.toFinset (unionF (mid ++ v :: post))
    have h2 : 0 < (u.toFinset ∩ unionF (mid ++ v :: post)).card :=
      Finset.card_pos.mpr ⟨x, hinter⟩
    have h3 := unionF_card_le (mid ++ v :: post)
    omega
  | cons p t ih =>
    rw [List.cons_append, unionF_cons, setCardSum_cons]
    have h1 := Finset.card_union_le p.toFinset (unionF (t ++ u :: (mid ++ v :: post)))
    omega

/-!
Bounds of the streak walk.
-/

theorem streakLoop_bounds (rest : List Int) (prev longest temp : Int)
    (hl : 1 ≤ longest) (ht : 1 ≤ temp) :
    1 ≤ (streakLoop rest prev longest temp).1 ∧ 1 ≤ (streakLoop rest prev longest temp).2 := by
  induction rest generalizing prev longest temp with
  | nil => exact ⟨hl, ht⟩
  | cons d t ih =>
    simp only [streakLoop]
    split
    · exact ih d longest (temp + 1) hl (by omega)
    · exact ih d (max longest temp) 1 (le_trans hl (le_max_left _ _)) le_rfl

/-!
The stable descending sort: permutation, sortedness, stability.
-/

theorem mem_insertByCount (x y : String × Nat) (l : List (String × Nat)) :
    y ∈ insertByCount x l ↔ y = x ∨ y ∈ l := by
  induction l with
  | nil => simp [insertByCount]
  | cons z t ih =>
    by_cases h : z.2 ≤ x.2 <;> (simp [insertByCount, h, ih]; try tauto)

theorem insertByCount_perm (x : String × Nat) (l : List (String × Nat)) :
    List.Perm (insertByCount x l) (x :: l) := by
  induction l with
  | nil => simp [insertByCount]
  | cons z t ih =>
    by_cases h : z.2 ≤ x.2
    · simp [insertByCount, h]
    · simp only [insertByCount, if_neg h]
      exact (List.Perm.cons z ih).trans (List.Perm.swap x z t)

theorem sortByCountDesc_perm (l : List (String × Nat)) :
    List.Perm (sortByCountDesc l) l := by
  induction l with
  | nil => simp [sortByCountDesc]
  | cons x t ih =>
    rw [show sortByCountDesc (x :: t) = insertByCount x (sortByCountDesc t) from rfl]
    exact (insertByCount_perm x _).trans (List.Perm.cons x ih)

theorem insertByCount_sorted (x : String × Nat) (l : List (String × Nat))
    (h : l.Pairwise (fun p q => q.2 ≤ p.2)) :
    (insertByCount x l).Pairwise (fun p q => q.2 ≤ p.2) := by
  induction l with
  | nil => simp [insertByCount]
  | cons z t ih =>
    rcases List.pairwise_cons.mp h with ⟨hz, ht⟩
    by_cases hc : z.2 ≤ x.2
    · simp only [insertByCount, if_pos hc]
      refine List.pairwise_cons.mpr ⟨?_, h⟩
      intro y hy
      rcases List.mem_cons.mp hy with rfl | hy2
      · exact hc
      · exact le_trans (hz y hy2) hc
    · simp only [insertByCount, if_neg hc]
      refine List.pairwise_cons.mpr ⟨?_, ih ht⟩
      intro y hy
      rcases (mem_insertByCount x y t).mp hy with rfl | hy2
      · omega
      · exact hz y hy2

theorem sortByCountDesc_sorted (l : List (String × Nat)) :
    (sortByCountDesc l).Pairwise (fun p q => q.2 ≤ p.2) := by
  induction l with
  | nil => simp [sortByCountDesc]
  | cons x t ih =>
    rw [show sortByCountDesc (x :: t) = insertByCount x (sortByCountDesc t) from rfl]
    exact insertByCount_sorted x _ ih

theorem insertByCount_filter (x : String × Nat) (l : List (String × Nat)) (c : Nat) :
    (insertByCount x l).filter (fun y => y.2 = c)
      = (if x.2 = c then [x] else []) ++ l.filter (fun y => y.2 = c) := by
  induction l with
  | nil => by_cases hx : x.2 = c <;> simp [insertByCount, hx]
  | cons z t ih =>
    by_cases hc : z.2 ≤ x.2
    · simp only [insertByCount, if_pos hc]
      by_cases hx : x.2 = c <;> simp [List.filter_cons, hx]
    · simp only [insertByCount, if_neg hc]
      by_cases hz : z.2 = c
      · have hx : ¬ x.2 = c := by omega
        simp [List.filter_cons, hz, hx, ih]
      · simp [List.filter_cons, hz, ih]

theorem sortByCountDesc_filter (l : List (String × Nat)) (c : Nat) :
    (sortByCountDesc l).filter (fun y => y.2 = c) = l.filter (fun y => y.2 = c) := by
  induction l with
  | nil => rfl
  | cons x t ih =>
    rw [show sortByCountDesc (x :: t) = insertByCount x (sortByCountDesc t) from rfl,
      insertByCount_filter, ih, List.filter_cons]
    by_cases hx : x.2 = c <;> simp [hx]

/-!
Behaviour of the analyzer loop: untouched fields and the
files-modified-versus-files-accessed relationship.
-/

theorem JsColl.elems_add {a : Type} [DecidableEq a] (c : JsColl a) (x : a) :
    (c.add x).elems = jsAdd c.elems x := by
  cases c <;> rfl

theorem JsColl.elems_toArr {a : Type} (c : JsColl a) : c.toArr.elems = c.elems := by
  cases c <;> rfl

theorem JsColl.toArr_eq_arr {a : Type} (c : JsColl a) : c.toArr = .arr c.elems := by
  cases c <;> rfl

theorem processItem_duration (s : SessionStats) (i : ContentItem) :
    (processItem s i).duration = s.duration := rfl

theorem foldl_processItem_duration (items : List ContentItem) (s : SessionStats) :
    (items.foldl processItem s).duration = s.duration := by
  induction items generalizing s with
  | nil => rfl
  | cons i t ih => rw [List.foldl_cons, ih, processItem_duration]

theorem countMessages_duration (s : SessionStats) (ev : RawEvent) :
    (countMessages s ev).duration = s.duration := by
  unfold countMessages
  split_ifs <;> rfl

theorem applyContent_duration (s : SessionStats) (ev : RawEvent) :
    (applyContent s ev).duration = s.duration := by
  unfold applyContent
  cases ev.message <;> simp [foldl_processItem_duration]

theorem applyToolResult_duration (s : SessionStats) (ev : RawEvent) :
    (applyToolResult s ev).duration = s.duration := by
  unfold applyToolResult
  split
  · split_ifs <;> rfl
  · rfl

theorem processEvent_duration (s : SessionStats) (ev : RawEvent) :
    (processEvent s ev).duration = s.duration := by
  unfold processEvent
  rw [applyToolResult_duration, applyContent_duration, countMessages_duration]

theorem foldl_processEvent_duration (evs : List RawEvent) (s : SessionStats) :
    (evs.foldl processEvent s).duration = s.duration := by
  induction evs generalizing s with
  | nil => rfl
  | cons e t ih => rw [List.foldl_cons, ih, processEvent_duration]

theorem processItem_accessed_mono (s : SessionStats) (i : ContentItem) {x : Option String}
    (hx : x ∈ s.filesAccessed.elems) : x ∈ (processItem s i).filesAccessed.elems := by
  by_cases htu : i.type = "tool_use"
  · cases hin : i.input with
    | none => simp [processItem, htu, hin, hx]
    | some inp =>
      cases hfp : inp.file_path with
      | none => simp [processItem, htu, hin, hfp, hx]
      | some p =>
        by_cases hp : p = ""
        · simp [processItem, htu, hin, hfp, hp, hx]
        · simp [processItem, htu, hin, hfp, hp, JsColl.elems_add, mem_jsAdd, hx]
  · simp [processItem, htu, hx]

theorem processItem_inv (s : SessionStats) (i : ContentItem)
    (h : ∀ p : String, p ≠ "" → some p ∈ s.filesModified.elems → some p ∈ s.filesAccessed.elems)
    (p : String) (hp : p ≠ "") (hmem : some p ∈ (processItem s i).filesModified.elems) :
    some p ∈ (processItem s i).filesAccessed.elems := by
  by_cases htu : i.type = "tool_use"
  · cases hin : i.input with
    | none =>
      simp [processItem, htu, hin] at hmem ⊢
      exact h p hp hmem
    | some inp =>
      by_cases hwe : i.name = "Write" ∨ i.name = "Edit"
      · cases hfp : inp.file_path with
        | none =>
          simp [processItem, htu, hin, hwe, hfp, JsColl.elems_add, mem_jsAdd] at hmem ⊢
          exact h p hp hmem
        | some q =>
          by_cases hq : q = ""
          · subst hq
            simp [processItem, htu, hin, hwe, hfp, JsColl.elems_add, mem_jsAdd] at hmem ⊢
            rcases hmem with rfl | hold
            · exact absurd rfl hp
            · exact h p hp hold
          · simp [processItem, htu, hin, hwe, hfp, hq, JsColl.elems_add, mem_jsAdd] at hmem ⊢
            rcases hmem with rfl | hold
            · exact Or.inl rfl
            · exact Or.inr (h p hp hold)
      · cases hfp : inp.file_path with
        | none =>
          simp [processItem, htu, hin, hwe, hfp] at hmem ⊢
          exact h p hp hmem
        | some q =>
          by_cases hq : q = ""
          · simp [processItem, htu, hin, hwe, hfp, hq] at hmem ⊢
            exact h p hp hmem
          · simp [processItem, htu, hin, hwe, hfp, hq, JsColl.elems_add, mem_jsAdd] at hmem ⊢
            exact Or.inr (h p hp hmem)
  · simp [processItem, htu] at hmem ⊢
    exact h p hp hmem

theorem foldl_processItem_inv (items : List ContentItem) (s : SessionStats)
    (h : ∀ p : String, p ≠ "" → some p ∈ s.filesModified.elems → some p ∈ s.filesAccessed.elems) :
    ∀ p : String, p ≠ "" → some p ∈ (items.foldl processItem s).filesModified.elems →
      some p ∈ (items.foldl processItem s).filesAccessed.elems := by
  induction items generalizing s with
  | nil => exact h
  | cons i t ih =>
    rw [List.foldl_cons]
    exact ih (processItem s i) (processItem_inv s i h)

theorem countMessages_filesModified (s : SessionStats) (ev : RawEvent) :
    (countMessages s ev).filesModified = s.filesModified := by
  unfold countMessages
  split_ifs <;> rfl

theorem countMessages_filesAccessed (s : SessionStats) (ev : RawEvent) :
    (countMessages s ev).filesAccessed = s.filesAccessed := by
  unfold countMessages
  split_ifs <;> rfl

theorem applyToolResult_filesModified (s : SessionStats) (ev : RawEvent) :
    (applyToolResult s ev).filesModified = s.filesModified := by
  unfold applyToolResult
  split
  · split_ifs <;> rfl
  · rfl

theorem applyToolResult_filesAccessed (s : SessionStats) (ev : RawEvent) :
    (applyToolResult s ev).filesAccessed = s.filesAccessed := by
  unfold applyToolResult
  split
  · split_ifs <;> rfl
  · rfl

theorem processEvent_inv (s : SessionStats) (ev : RawEvent)
    (h : ∀ p : String, p ≠ "" → some p ∈ s.filesModified.elems → some p ∈ s.filesAccessed.elems)
    (p : String) (hp : p ≠ "")
    (hmem : some p ∈ (processEvent s ev).filesModified.elems) :
    some p ∈ (processEvent s ev).filesAccessed.elems := by
  unfold processEvent at hmem ⊢
  rw [applyToolResult_filesModified] at hmem
  rw [applyToolResult_filesAccessed]
  have h0 : ∀ q : String, q ≠ "" → some q ∈ (countMessages s ev).filesModified.elems →
      some q ∈ (countMessages s ev).filesAccessed.elems := by
    rw [countMessages_filesModified, countMessages_filesAccessed]
    exact h
  unfold applyContent at hmem ⊢
  cases hm : ev.message with
  | none =>
    simp only [hm] at hmem ⊢
    exact h0 p hp hmem
  | some items =>
    simp only [hm] at hmem ⊢
    exact foldl_processItem_inv items _ h0 p hp hmem

theorem foldl_processEvent_inv (evs : List RawEvent) (s : SessionStats)
    (h : ∀ p : String, p ≠ "" → some p ∈ s.filesModified.elems → some p ∈ s.filesAccessed.elems) :
    ∀ p : String, p ≠ "" → some p ∈ (evs.foldl processEvent s).filesModified.elems →
      some p ∈ (evs.foldl processEvent s).filesAccessed.elems := by
  induction evs generalizing s with
  | nil => exact h
  | cons e t ih =>
    rw [List.foldl_cons]
    exact ih (processEvent s e) (processEvent_inv s e h)

/-!
Closed forms of the aggregated statistics, starting from the actual initial
accumulators.
-/

theorem JsColl.isArr_toArr {a : Type} (c : JsColl a) : c.toArr.isArr = true := by
  cases c <;> rfl

theorem agg_totalSessions_eq (tz : Int) (ss : List SessionStats) :
    (aggregateStats tz ss).totalSessions = ss.length := rfl

theorem agg_totalMessages_eq (tz : Int) (ss : List SessionStats) :
    (aggregateStats tz ss).totalMessages = (ss.map (fun s => s.messageCount)).sum := by
  show (ss.foldl (aggStep tz) initialAgg).totalMessages = _
  rw [agg_fold_totalMessages]
  simp [initialAgg]

theorem agg_totalUserMessages_eq (tz : Int) (ss : List SessionStats) :
    (aggregateStats tz ss).totalUserMessages = (ss.map (fun s => s.userMessages)).sum := by
  show (ss.foldl (aggStep tz) initialAgg).totalUserMessages = _
  rw [agg_fold_totalUserMessages]
  simp [initialAgg]

theorem agg_totalAssistantMessages_eq (tz : Int) (ss : List SessionStats) :
    (aggregateStats tz ss).totalAssistantMessages
      = (ss.map (fun s => s.assistantMessages)).sum := by
  show (ss.foldl (aggStep tz) initialAgg).totalAssistantMessages = _
  rw [agg_fold_totalAssistantMessages]
  simp [initialAgg]

theorem agg_totalDuration_eq (tz : Int) (ss : List SessionStats) :
    (aggregateStats tz ss).totalDuration = (ss.map (fun s => s.duration)).sum := by
  show (ss.foldl (aggStep tz) initialAgg).totalDuration = _
  rw [agg_fold_totalDuration]
  simp [initialAgg]

theorem agg_totalThinkingBlocks_eq (tz : Int) (ss : List SessionStats) :
    (aggregateStats tz ss).totalThinkingBlocks = (ss.map (fun s => s.thinkingBlocks)).sum := by
  show (ss.foldl (aggStep tz) initialAgg).totalThinkingBlocks = _
  rw [agg_fold_totalThinkingBlocks]
  simp [initialAgg]

theorem agg_totalFilesAccessed_eq (tz : Int) (ss : List SessionStats) :
    (aggregateStats tz ss).totalFilesAccessed
      = (unionF (ss.map (fun s => s.filesAccessed.elems))).card := by
  show (ss.foldl (aggStep tz) initialAgg).totalFilesAccessed.length = _
  have hnd := agg_fold_filesAccessed_nodup tz ss initialAgg (by simp [initialAgg])
  rw [← List.toFinset_card_of_nodup hnd, agg_fold_filesAccessed]
  simp [initialAgg]

theorem agg_totalFilesModified_eq (tz : Int) (ss : List SessionStats) :
    (aggregateStats tz ss).totalFilesModified
      = (unionF (ss.map (fun s => s.filesModified.elems))).card := by
  show (ss.foldl (aggStep tz) initialAgg).totalFilesModified.length = _
  have hnd := agg_fold_filesModified_nodup tz ss initialAgg (by simp [initialAgg])
  rw [← List.toFinset_card_of_nodup hnd, agg_fold_filesModified]
  simp [initialAgg]

theorem agg_totalFilesCreated_eq (tz : Int) (ss : List SessionStats) :
    (aggregateStats tz ss).totalFilesCreated
      = (unionF (ss.map (fun s => s.filesCreated.elems))).card := by
  show (ss.foldl (aggStep tz) initialAgg).totalFilesCreated.length = _
  have hnd := agg_fold_filesCreated_nodup tz ss initialAgg (by simp [initialAgg])
  rw [← List.toFinset_card_of_nodup hnd, agg_fold_filesCreated]
  simp [initialAgg]

theorem agg_totalGitBranches_eq (tz : Int) (ss : List SessionStats) :
    (aggregateStats tz ss).totalGitBranches = (unionF (ss.map branchList)).card := by
  show (ss.foldl (aggStep tz) initialAgg).gitBranches.length = _
  have hnd := agg_fold_gitBranches_nodup tz ss initialAgg (by simp [initialAgg])
  rw [← List.toFinset_card_of_nodup hnd, agg_fold_gitBranches]
  simp [initialAgg]

theorem agg_toolUsage_eq (tz : Int) (ss : List SessionStats) (q : String) :
    lookupCount (aggregateStats tz ss).toolUsage q
      = (ss.map (fun s => keySum s.toolUsage q)).sum := by
  show lookupCount (ss.foldl (aggStep tz) initialAgg).toolUsage q = _
  rw [agg_fold_toolUsage]
  simp [initialAgg, lookupCount]

theorem agg_languageStats_eq (tz : Int) (ss : List SessionStats) (q : String) :
    lookupCount (aggregateStats tz ss).languageStats q
      = (ss.map (fun s => s.languages.elems.count q)).sum := by
  show lookupCount (ss.foldl (aggStep tz) initialAgg).languageStats q = _
  rw [agg_fold_languageStats]
  simp [initialAgg, lookupCount]

theorem agg_projectStats_eq (tz : Int) (ss : List SessionStats) (q : String) :
    lookupCount (aggregateStats tz ss).projectStats q
      = (ss.map (fun s => (projList s).count q)).sum := by
  show lookupCount (ss.foldl (aggStep tz) initialAgg).projectStats q = _
  rw [agg_fold_projectStats]
  simp [initialAgg, lookupCount]

theorem agg_dailyActivity_eq (tz : Int) (ss : List SessionStats) (q : Int) :
    lookupCount (aggregateStats tz ss).dailyActivity q
      = (ss.map (fun s => (dayList s).count q)).sum := by
  show lookupCount (ss.foldl (aggStep tz) initialAgg).dailyActivity q = _
  rw [agg_fold_dailyActivity]
  simp [initialAgg, lookupCount]

theorem agg_hourlyActivity_eq (tz : Int) (ss : List SessionStats) (q : Int) :
    lookupCount (aggregateStats tz ss).hourlyActivity q
      = (ss.map (fun s => (hourList tz s).count q)).sum := by
  show lookupCount (ss.foldl (aggStep tz) initialAgg).hourlyActivity q = _
  rw [agg_fold_hourlyActivity]
  simp [initialAgg, lookupCount]

theorem wd_totalSessions_eq (tz : Int) (ws : List WDSession) :
    (ws.foldl (updateStats tz) initialWD).totalSessions = ws.length := by
  rw [wd_fold_totalSessions]
  simp [initialWD]

theorem wd_totalMessages_eq (tz : Int) (ws : List WDSession) :
    (ws.foldl (updateStats tz) initialWD).totalMessages
      = (ws.map (fun s => s.messageCount.getD 0)).sum := by
  rw [wd_fold_totalMessages]
  simp [initialWD]

theorem wd_totalFilesModified_eq (tz : Int) (ws : List WDSession) :
    (ws.foldl (updateStats tz) initialWD).totalFilesModified
      = (ws.map (fun s => (s.filesModified.map List.length).getD 0)).sum := by
  rw [wd_fold_totalFilesModified]
  simp [initialWD]

theorem wd_totalFilesCreated_eq (tz : Int) (ws : List WDSession) :
    (ws.foldl (updateStats tz) initialWD).totalFilesCreated
      = (ws.map (fun s => (s.filesCreated.map List.length).getD 0)).sum := by
  rw [wd_fold_totalFilesCreated]
  simp [initialWD]

theorem wd_totalLinesAdded_eq (tz : Int) (ws : List WDSession) :
    (ws.foldl (updateStats tz) initialWD).totalLinesAdded
      = (ws.map (fun s => s.linesAdded.getD 0)).sum := by
  rw [wd_fold_totalLinesAdded]
  simp [initialWD]

theorem wd_totalLinesRemoved_eq (tz : Int) (ws : List WDSession) :
    (ws.foldl (updateStats tz) initialWD).totalLinesRemoved
      = (ws.map (fun s => s.linesRemoved.getD 0)).sum := by
  rw [wd_fold_totalLinesRemoved]
  simp [initialWD]

theorem wd_totalToolCalls_eq (tz : Int) (ws : List WDSession) :
    (ws.foldl (updateStats tz) initialWD).totalToolCalls
      = (ws.map (fun s => (s.toolCalls.map List.length).getD 0)).sum := by
  rw [wd_fold_totalToolCalls]
  simp [initialWD]

theorem wd_toolUsage_eq (tz : Int) (ws : List WDSession) (q : String) :
    lookupCount (ws.foldl (updateStats tz) initialWD).toolUsage q
      = (ws.map (fun s => (s.toolCalls.getD []).count q)).sum := by
  rw [wd_fold_toolUsage]
  simp [initialWD, lookupCount]

theorem wd_languageStats_eq (tz : Int) (ws : List WDSession) (q : String) :
    lookupCount (ws.foldl (updateStats tz) initialWD).languageStats q
      = (ws.map (fun s => (s.languages.getD []).count q)).sum := by
  rw [wd_fold_languageStats]
  simp [initialWD, lookupCount]

theorem wd_projectStats_eq (tz : Int) (ws : List WDSession) (q : String) :
    lookupCount (ws.foldl (updateStats tz) initialWD).projectStats q
      = (ws.map (fun s => (projListWD s).count q)).sum := by
  rw [wd_fold_projectStats]
  simp [initialWD, lookupCount]

theorem wd_dailyActivity_eq (tz : Int) (ws : List WDSession) (q : String) :
    lookupCount (ws.foldl (updateStats tz) initialWD).dailyActivity q
      = (ws.map (fun s => (dateListWD s).count q)).sum := by
  rw [wd_fold_dailyActivity]
  simp [initialWD, lookupCount]

theorem wd_hourlyActivity_eq (tz : Int) (ws : List WDSession) (q : Int) :
    lookupCount (ws.foldl (updateStats tz) initialWD).hourlyActivity q
      = (ws.map (fun s => (hourListWD tz s).count q)).sum := by
  rw [wd_fold_hourlyActivity]
  simp [initialWD, lookupCount]

/-!
Concrete fixtures for evaluated statements.
-/

/-- A minimal event with only a timestamp, used in concrete evaluations. -/
def plainEvent (t : Int) : RawEvent where
  type := "x"
  userType := none
  message := none
  toolUseResult := none
  timestamp := t
  sessionId := none
  cwd := none
  gitBranch := none

/-- An assistant event whose content is a single `Write` tool use carrying
the given `file_path` value, used in concrete evaluations. -/
def writeEvent (fp : Option String) : RawEvent where
  type := "assistant"
  userType := none
  message := some [{ type := "tool_use", name := "Write",
                     input := some { file_path := fp, command := none } }]
  toolUseResult := none
  timestamp := 0
  sessionId := none
  cwd := none
  gitBranch := none

/-!
Claim theorems.
-/

/-- Claim C1: the specification says `currentStreak` equals the final running
streak when the most recent date is at most one day before `now` and `0`
otherwise, in both streak implementations.  The live-log implementation
(`calculateStreaksRW`, realWrapped.js) does return `0`, but the
recorded-sessions implementation (`calculateStreaksWD`,
WrappedData.calculateStreaks) initialises its local `currentStreak` to `1`
and never resets it in the inactive branch: with one activity date at day 0
and `now` at day 10 (gap of ten days) it returns `currentStreak = 1` where
the specification and the sibling implementation give `0`.  The last two
conjuncts check the specification section 8 scenario (dates day 0,1,2,9 and
`now` = day 10: longest 3, current 1), on which the two implementations
coincide. -/
theorem wd_currentStreak_stale_one :
    calculateStreaksWD [0] (10 * msPerDay) = (1, 1) ∧
    calculateStreaksRW [0] (10 * msPerDay) = (1, 0) ∧
    calculateStreaksWD [0, 1, 2, 9] (10 * msPerDay) = (3, 1) ∧
    calculateStreaksRW [0, 1, 2, 9] (10 * msPerDay) = (3, 1) := by
  refine ⟨by decide, by decide, by decide, by decide⟩

/-- Claim C2 counterexample: with the last timestamp one minute before the
first, `analyzeSession` returns `duration = -1`; the clamp to `≥ 0` the claim
asserts does not exist in the code. -/
theorem analyzeSession_duration_negative :
    (analyzeSession [plainEvent 60000, plainEvent 0]).duration = -1 := by decide

/-- Claim C2 (amended): for every non-empty event sequence, `duration` is
exactly `Math.floor((last − first) / 1000 / 60)`, i.e. the floor of the
timestamp difference in whole minutes, with no clamping — it is negative
whenever the last timestamp is at least a minute before the first. -/
theorem analyzeSession_duration_formula (e0 : RawEvent) (rest : List RawEvent) :
    (analyzeSession (e0 :: rest)).duration
      = Int.fdiv ((rest.getLastD e0).timestamp - e0.timestamp) 60000 := by
  show ((e0 :: rest).foldl processEvent (seedStats e0 rest)).duration = _
  rw [foldl_processEvent_duration]
  rfl

/-- Claim C6: for every non-empty, strictly sorted date list and every time
of calculation, both streak implementations satisfy
`longestStreak ≥ currentStreak ≥ 0` and `longestStreak ≥ 1`. -/
theorem streak_invariants (dates : List Int) (nowMs : Int) (hne : dates ≠ [])
    (hsorted : dates.Pairwise (fun a b => a < b)) :
    (0 ≤ (calculateStreaksWD dates nowMs).2 ∧
      (calculateStreaksWD dates nowMs).2 ≤ (calculateStreaksWD dates nowMs).1 ∧
      1 ≤ (calculateStreaksWD dates nowMs).1) ∧
    (0 ≤ (calculateStreaksRW dates nowMs).2 ∧
      (calculateStreaksRW dates nowMs).2 ≤ (calculateStreaksRW dates nowMs).1 ∧
      1 ≤ (calculateStreaksRW dates nowMs).1) := by
  cases dates with
  | nil => exact absurd rfl hne
  | cons d rest =>
    have hb := streakLoop_bounds rest d 1 1 le_rfl le_rfl
    have h1 : (streakLoop rest d 1 1).1
        ≤ max (streakLoop rest d 1 1).1 (streakLoop rest d 1 1).2 := le_max_left _ _
    have h2 : (streakLoop rest d 1 1).2
        ≤ max (streakLoop rest d 1 1).1 (streakLoop rest d 1 1).2 := le_max_right _ _
    have h3 := max_choice (streakLoop rest d 1 1).1 (streakLoop rest d 1 1).2
    simp only [calculateStreaksWD, calculateStreaksRW]
    refine ⟨⟨?_, ?_, ?_⟩, ?_, ?_, ?_⟩ <;> (first | (split_ifs <;> omega) | omega)

/-- Claim C6 witness: the invariants hold at the concrete date list
`[day 0, day 1]` with `now` = day 1, where the result is `(2, 2)`. -/
theorem streak_invariants_witness :
    calculateStreaksRW [0, 1] msPerDay = (2, 2) ∧
    calculateStreaksWD [0, 1] msPerDay = (2, 2) ∧
    ((0 ≤ (calculateStreaksWD [0, 1] msPerDay).2 ∧
      (calculateStreaksWD [0, 1] msPerDay).2 ≤ (calculateStreaksWD [0, 1] msPerDay).1 ∧
      1 ≤ (calculateStreaksWD [0, 1] msPerDay).1) ∧
    (0 ≤ (calculateStreaksRW [0, 1] msPerDay).2 ∧
      (calculateStreaksRW [0, 1] msPerDay).2 ≤ (calculateStreaksRW [0, 1] msPerDay).1 ∧
      1 ≤ (calculateStreaksRW [0, 1] msPerDay).1)) := by
  refine ⟨by decide, by decide, streak_invariants [0, 1] msPerDay (by decide) (by decide)⟩

/-- Claim C9: an event whose content holds a `Write` tool use with an
`input` object but no `file_path` field makes `analyzeSession` add the
JavaScript value `undefined` (modelled as `none`) to `filesModified`, and the
aggregated `totalFilesModified` then counts that non-path entry. -/
theorem undefined_counted_in_filesModified :
    none ∈ (analyzeSession [writeEvent none]).filesModified.elems ∧
    (analyzeSession [writeEvent none]).filesModified = JsColl.arr [none] ∧
    (aggregateStats 0 [analyzeSession [writeEvent none]]).totalFilesModified = 1 := by
  refine ⟨by decide, by decide, by decide⟩

/-- Claim C10: on the empty event list `analyzeSession` returns early with
the set fields still `Set` objects and every numeric field zero, while on any
non-empty event list the four set fields are converted to arrays — so the
representation at the interface differs by input even when, as for a single
ignored event, all numeric fields are zero and all set fields are empty in
both cases. -/
theorem analyzeSession_empty_representation :
    (analyzeSession []).filesAccessed = JsColl.set [] ∧
    (analyzeSession []).filesModified = JsColl.set [] ∧
    (analyzeSession []).filesCreated = JsColl.set [] ∧
    (analyzeSession []).languages = JsColl.set [] ∧
    (analyzeSession []).messageCount = 0 ∧
    (analyzeSession []).userMessages = 0 ∧
    (analyzeSession []).assistantMessages = 0 ∧
    (analyzeSession []).duration = 0 ∧
    (analyzeSession []).thinkingBlocks = 0 ∧
    (∀ e0 rest,
      (analyzeSession (e0 :: rest)).filesAccessed.isArr = true ∧
      (analyzeSession (e0 :: rest)).filesModified.isArr = true ∧
      (analyzeSession (e0 :: rest)).filesCreated.isArr = true ∧
      (analyzeSession (e0 :: rest)).languages.isArr = true) ∧
    (analyzeSession []).filesAccessed.isArr = false ∧
    (analyzeSession [plainEvent 0]).filesAccessed = JsColl.arr [] ∧
    (analyzeSession [plainEvent 0]).filesModified = JsColl.arr [] ∧
    (analyzeSession [plainEvent 0]).filesCreated = JsColl.arr [] ∧
    (analyzeSession [plainEvent 0]).languages = JsColl.arr [] ∧
    (analyzeSession [plainEvent 0]).messageCount = 0 ∧
    (analyzeSession [plainEvent 0]).duration = 0 ∧
    (analyzeSession [plainEvent 0]).thinkingBlocks = 0 := by
  refine ⟨by decide, by decide, by decide, by decide, by decide, by decide, by decide,
    by decide, by decide, ?_, by decide, by decide, by decide, by decide, by decide,
    by decide, by decide, by decide⟩
  intro e0 rest
  refine ⟨?_, ?_, ?_, ?_⟩ <;>
    exact JsColl.isArr_toArr _

/-- Claim C8 counterexample: an empty string is a defined path string, yet a
`Write` tool use with `file_path = ""` puts it into `filesModified` while the
truthiness guard keeps it out of `filesAccessed` — so not every defined path
string in `filesModified` is in `filesAccessed`. -/
theorem empty_path_modified_not_accessed :
    some "" ∈ (analyzeSession [writeEvent (some "")]).filesModified.elems ∧
    (analyzeSession [writeEvent (some "")]).filesAccessed.elems = [] := by
  refine ⟨by decide, by decide⟩

/-- Claim C8 (amended): every element of `filesModified` that is a defined
and non-empty path string is also an element of `filesAccessed`: the only
statement adding to `filesModified` adds `item.input.file_path`, and whenever
that value is a truthy string the same item already added it to
`filesAccessed`. -/
theorem modified_nonempty_defined_in_accessed (events : List RawEvent) (p : String)
    (hp : p ≠ "") (hmem : some p ∈ (analyzeSession events).filesModified.elems) :
    some p ∈ (analyzeSession events).filesAccessed.elems := by
  cases events with
  | nil =>
    rw [show (analyzeSession []).filesModified.elems = [] from rfl] at hmem
    exact absurd hmem (List.not_mem_nil _)
  | cons e0 rest =>
    have hbase : ∀ q : String, q ≠ "" →
        some q ∈ (seedStats e0 rest).filesModified.elems →
        some q ∈ (seedStats e0 rest).filesAccessed.elems := by
      intro q _ hq
      rw [show (seedStats e0 rest).filesModified.elems = [] from rfl] at hq
      exact absurd hq (List.not_mem_nil _)
    have key := foldl_processEvent_inv (e0 :: rest) (seedStats e0 rest) hbase p hp
    rw [show (analyzeSession (e0 :: rest)).filesModified.elems
        = ((e0 :: rest).foldl processEvent (seedStats e0 rest)).filesModified.elems from by
      rw [show (analyzeSession (e0 :: rest)).filesModified
          = ((e0 :: rest).foldl processEvent (seedStats e0 rest)).filesModified.toArr from rfl,
        JsColl.elems_toArr]] at hmem
    rw [show (analyzeSession (e0 :: rest)).filesAccessed.elems
        = ((e0 :: rest).foldl processEvent (seedStats e0 rest)).filesAccessed.elems from by
      rw [show (analyzeSession (e0 :: rest)).filesAccessed
          = ((e0 :: rest).foldl processEvent (seedStats e0 rest)).filesAccessed.toArr from rfl,
        JsColl.elems_toArr]]
    exact key hmem

/-- Claim C8 witness: a `Write` of the non-empty path `x.py` lands in both
`filesModified` and, by the amended subset property, in `filesAccessed`. -/
theorem modified_nonempty_defined_in_accessed_witness :
    ("x.py" : String) ≠ "" ∧
    some "x.py" ∈ (analyzeSession [writeEvent (some "x.py")]).filesModified.elems ∧
    some "x.py" ∈ (analyzeSession [writeEvent (some "x.py")]).filesAccessed.elems := by
  refine ⟨by decide, by decide,
    modified_nonempty_defined_in_accessed [writeEvent (some "x.py")] "x.py" (by decide) (by decide)⟩

/-- Claim C5: for every project histogram with distinct keys, `topProjects`
has length `min 5 (number of projects)`, is sorted by session count
descending, and the underlying sort is stable — entries of any fixed count
appear in exactly their original relative order (stated as filter
invariance), the sorted list being a permutation of the input. -/
theorem topProjects_spec (ps : List (String × Nat))
    (_keysNodup : (ps.map (fun p => p.1)).Nodup) :
    (topProjects ps).length = min 5 ps.length ∧
    (topProjects ps).Pairwise (fun p q => q.2 ≤ p.2) ∧
    (∀ c, (sortByCountDesc ps).filter (fun y => y.2 = c) = ps.filter (fun y => y.2 = c)) ∧
    List.Perm (sortByCountDesc ps) ps := by
  refine ⟨?_, ?_, ?_, sortByCountDesc_perm ps⟩
  · rw [show topProjects ps = (sortByCountDesc ps).take 5 from rfl, List.length_take,
      (sortByCountDesc_perm ps).length_eq]
  · exact (sortByCountDesc_sorted ps).sublist (List.take_sublist 5 _)
  · exact fun c => sortByCountDesc_filter ps c

/-- Claim C5 witness: on a concrete six-project histogram the first five
entries come out sorted by count descending with the tie between the three
count-2 projects resolved in input order. -/
theorem topProjects_spec_witness :
    topProjects [("a", 2), ("b", 5), ("c", 2), ("d", 7), ("e", 2), ("f", 9)]
      = [("f", 9), ("d", 7), ("b", 5), ("a", 2), ("c", 2)] ∧
    (topProjects [("a", 2), ("b", 5), ("c", 2), ("d", 7), ("e", 2), ("f", 9)]).length
      = min 5 ([("a", 2), ("b", 5), ("c", 2), ("d", 7), ("e", 2), ("f", 9)] : List (String × Nat)).length ∧
    (topProjects [("a", 2), ("b", 5), ("c", 2), ("d", 7), ("e", 2), ("f", 9)]).Pairwise
      (fun p q => q.2 ≤ p.2) ∧
    (sortByCountDesc [("a", 2), ("b", 5), ("c", 2), ("d", 7), ("e", 2), ("f", 9)]).filter
        (fun y => y.2 = 2)
      = ([("a", 2), ("b", 5), ("c", 2), ("d", 7), ("e", 2), ("f", 9)] : List (String × Nat)).filter
        (fun y => y.2 = 2) := by
  have h := topProjects_spec [("a", 2), ("b", 5), ("c", 2), ("d", 7), ("e", 2), ("f", 9)]
    (by decide)
  exact ⟨by decide, h.1, h.2.1, h.2.2.1 2⟩

/-- Claim C7: one unparsable line never aborts the file — it is skipped and
every valid line still contributes its event, in order, so the session
statistics computed from the file reflect exactly the surrounding valid
events. -/
theorem parseSessionFile_skips_bad_line (parse : String → Option RawEvent)
    (good1 good2 : List String) (bad : String) (hbad : parse bad = none) :
    parseSessionFile parse (good1 ++ bad :: good2)
      = parseSessionFile parse good1 ++ parseSessionFile parse good2 ∧
    analyzeSession (parseSessionFile parse (good1 ++ bad :: good2))
      = analyzeSession (parseSessionFile parse good1 ++ parseSessionFile parse good2) ∧
    (∀ l, l ∈ good1 ++ good2 → lineNonBlank l = true → ∀ e, parse l = some e →
      e ∈ parseSessionFile parse (good1 ++ bad :: good2)) := by
  have hmain : parseSessionFile parse (good1 ++ bad :: good2)
      = parseSessionFile parse good1 ++ parseSessionFile parse good2 := by
    unfold parseSessionFile
    rw [List.filter_append, List.filterMap_append, List.filter_cons]
    by_cases hb : lineNonBlank bad
    · simp [hb, List.filterMap_cons, hbad]
    · simp [hb]
  refine ⟨hmain, by rw [hmain], ?_⟩
  intro l hl hnb e he
  rw [hmain]
  rcases List.mem_append.mp hl with h1 | h2
  · refine List.mem_append.mpr (Or.inl ?_)
    exact List.mem_filterMap.mpr ⟨l, List.mem_filter.mpr ⟨h1, hnb⟩, he⟩
  · refine List.mem_append.mpr (Or.inr ?_)
    exact List.mem_filterMap.mpr ⟨l, List.mem_filter.mpr ⟨h2, hnb⟩, he⟩

/-- A toy structured-line parse used to witness the bad-line property: two
recognised lines, everything else fails. -/
def toyParse : String → Option RawEvent :=
  fun s => if s = "e1" then some (plainEvent 1) else if s = "e3" then some (plainEvent 3) else none

/-- Claim C7 witness: in the concrete file `e1 / oops / e3` the middle line
fails to parse and is dropped while both neighbouring events survive. -/
theorem parseSessionFile_skips_bad_line_witness :
    toyParse "oops" = none ∧
    parseSessionFile toyParse ["e1", "oops", "e3"] = [plainEvent 1, plainEvent 3] ∧
    parseSessionFile toyParse (["e1"] ++ "oops" :: ["e3"])
      = parseSessionFile toyParse ["e1"] ++ parseSessionFile toyParse ["e3"] := by
  refine ⟨by decide, by decide,
    (parseSessionFile_skips_bad_line toyParse ["e1"] ["e3"] "oops" (by decide)).1⟩

/-- A recorded session modifying the single file `a`, used to show the
recorded-sessions totals are not union-based. -/
def wdDup : WDSession where
  messageCount := none
  filesModified := some ["a"]
  filesCreated := none
  linesAdded := none
  linesRemoved := none
  toolCalls := none
  languages := none
  project := none
  date := none
  timestamp := none

/-- A per-session statistics record that touched exactly the file `a`, used
in witnesses of the union-based totals. -/
def sessShared : SessionStats :=
  { initialStats with
    filesAccessed := JsColl.arr [some "a"]
    filesModified := JsColl.arr [some "a"]
    filesCreated := JsColl.arr [some "a"] }

/-- Claim C3 counterexample: the recorded-sessions aggregation
(`WrappedData.updateStats`) adds per-session array lengths, so two sessions
each modifying only the file `a` yield `totalFilesModified = 2`, although
the union of the per-session sets has size `1`; the union-size description
is only true of the live-log implementation. -/
theorem wd_totalFilesModified_not_union :
    (List.foldl (updateStats 0) initialWD [wdDup, wdDup]).totalFilesModified = 2 ∧
    (unionF [["a"], ["a"]]).card = 1 ∧
    [wdDup, wdDup].map (fun s => s.filesModified.getD []) = [["a"], ["a"]] := by
  refine ⟨by decide, by decide, by decide⟩

/-- Claim C3 (amended): in the live-log pipeline (`aggregateStats`) each file
total equals the size of the union of the per-session sets, never exceeds
the sum of the per-session set sizes, and is strictly below that sum whenever
some path occurs in two distinct sessions; the recorded-sessions pipeline
(`updateStats`) instead sums the per-session array lengths. -/
theorem aggregate_file_totals_union (tz : Int) (ss : List SessionStats) :
    ((aggregateStats tz ss).totalFilesAccessed
        = (unionF (ss.map (fun s => s.filesAccessed.elems))).card ∧
      (aggregateStats tz ss).totalFilesModified
        = (unionF (ss.map (fun s => s.filesModified.elems))).card ∧
      (aggregateStats tz ss).totalFilesCreated
        = (unionF (ss.map (fun s => s.filesCreated.elems))).card) ∧
    ((aggregateStats tz ss).totalFilesAccessed
        ≤ setCardSum (ss.map (fun s => s.filesAccessed.elems)) ∧
      (aggregateStats tz ss).totalFilesModified
        ≤ setCardSum (ss.map (fun s => s.filesModified.elems)) ∧
      (aggregateStats tz ss).totalFilesCreated
        ≤ setCardSum (ss.map (fun s => s.filesCreated.elems))) ∧
    (∀ pre mid post u v x, ss = pre ++ u :: (mid ++ v :: post) →
      x ∈ u.filesAccessed.elems → x ∈ v.filesAccessed.elems →
      (aggregateStats tz ss).totalFilesAccessed
        < setCardSum (ss.map (fun s => s.filesAccessed.elems))) ∧
    (∀ pre mid post u v x, ss = pre ++ u :: (mid ++ v :: post) →
      x ∈ u.filesModified.elems → x ∈ v.filesModified.elems →
      (aggregateStats tz ss).totalFilesModified
        < setCardSum (ss.map (fun s => s.filesModified.elems))) ∧
    (∀ pre mid post u v x, ss = pre ++ u :: (mid ++ v :: post) →
      x ∈ u.filesCreated.elems → x ∈ v.filesCreated.elems →
      (aggregateStats tz ss).totalFilesCreated
        < setCardSum (ss.map (fun s => s.filesCreated.elems))) ∧
    (∀ ws : List WDSession,
      (ws.foldl (updateStats tz) initialWD).totalFilesModified
        = (ws.map (fun s => (s.filesModified.map List.length).getD 0)).sum ∧
      (ws.foldl (updateStats tz) initialWD).totalFilesCreated
        = (ws.map (fun s => (s.filesCreated.map List.length).getD 0)).sum) := by
  refine ⟨⟨agg_totalFilesAccessed_eq tz ss, agg_totalFilesModified_eq tz ss,
      agg_totalFilesCreated_eq tz ss⟩,
    ⟨?_, ?_, ?_⟩, ?_, ?_, ?_,
    fun ws => ⟨wd_totalFilesModified_eq tz ws, wd_totalFilesCreated_eq tz ws⟩⟩
  · rw [agg_totalFilesAccessed_eq]
    exact unionF_card_le _
  · rw [agg_totalFilesModified_eq]
    exact unionF_card_le _
  · rw [agg_totalFilesCreated_eq]
    exact unionF_card_le _
  · intro pre mid post u v x hss hxu hxv
    subst hss
    rw [agg_totalFilesAccessed_eq]
    have hmap : (pre ++ u :: (mid ++ v :: post)).map (fun s => s.filesAccessed.elems)
        = pre.map (fun s => s.filesAccessed.elems)
          ++ u.filesAccessed.elems
            :: (mid.map (fun s => s.filesAccessed.elems)
              ++ v.filesAccessed.elems :: post.map (fun s => s.filesAccessed.elems)) := by
      simp
    rw [hmap]
    exact unionF_card_lt _ _ _ _ _ x hxu hxv
  · intro pre mid post u v x hss hxu hxv
    subst hss
    rw [agg_totalFilesModified_eq]
    have hmap : (pre ++ u :: (mid ++ v :: post)).map (fun s => s.filesModified.elems)
        = pre.map (fun s => s.filesModified.elems)
          ++ u.filesModified.elems
            :: (mid.map (fun s => s.filesModified.elems)
              ++ v.filesModified.elems :: post.map (fun s => s.filesModified.elems)) := by
      simp
    rw [hmap]
    exact unionF_card_lt _ _ _ _ _ x hxu hxv
  · intro pre mid post u v x hss hxu hxv
    subst hss
    rw [agg_totalFilesCreated_eq]
    have hmap : (pre ++ u :: (mid ++ v :: post)).map (fun s => s.filesCreated.elems)
        = pre.map (fun s => s.filesCreated.elems)
          ++ u.filesCreated.elems
            :: (mid.map (fun s => s.filesCreated.elems)
              ++ v.filesCreated.elems :: post.map (fun s => s.filesCreated.elems)) := by
      simp
    rw [hmap]
    exact unionF_card_lt _ _ _ _ _ x hxu hxv

/-- Claim C3 witness: two sessions sharing the file `a` give a live-log
total of `1`, strictly below the sum `2` of the per-session set sizes. -/
theorem aggregate_file_totals_union_witness :
    (aggregateStats 0 [sessShared, sessShared]).totalFilesAccessed = 1 ∧
    setCardSum ([sessShared, sessShared].map (fun s => s.filesAccessed.elems)) = 2 ∧
    (aggregateStats 0 [sessShared, sessShared]).totalFilesAccessed
      < setCardSum ([sessShared, sessShared].map (fun s => s.filesAccessed.elems)) := by
  refine ⟨by decide, by decide, ?_⟩
  have h := aggregate_file_totals_union 0 [sessShared, sessShared]
  exact h.2.2.1 [] [] [] sessShared sessShared (some "a") rfl (by decide) (by decide)

/-- Claim C4: aggregation is order-independent.  For any permutation of the
session list both pipelines produce agreeing aggregates: equal scalar
totals, equal set-based counts, and equal histogram mappings read as
key-to-count functions (key insertion order, the only tie-break-sensitive
part of the result, is excluded by reading the histograms as functions). -/
theorem aggregation_order_independent (tz : Int) (ss ssP : List SessionStats)
    (hs : List.Perm ss ssP) (ws wsP : List WDSession) (hw : List.Perm ws wsP) :
    aggAgrees (aggregateStats tz ss) (aggregateStats tz ssP) ∧
    wdAgrees (ws.foldl (updateStats tz) initialWD) (wsP.foldl (updateStats tz) initialWD) := by
  constructor
  · refine ⟨?_, ?_, ?_, ?_, ?_, ?_, ?_, ?_, ?_, ?_, ?_, ?_, ?_, ?_, ?_⟩
    · rw [agg_totalSessions_eq, agg_totalSessions_eq]
      exact hs.length_eq
    · rw [agg_totalMessages_eq, agg_totalMessages_eq]
      exact (hs.map _).sum_eq
    · rw [agg_totalUserMessages_eq, agg_totalUserMessages_eq]
      exact (hs.map _).sum_eq
    · rw [agg_totalAssistantMessages_eq, agg_totalAssistantMessages_eq]
      exact (hs.map _).sum_eq
    · rw [agg_totalDuration_eq, agg_totalDuration_eq]
      exact (hs.map _).sum_eq
    · rw [agg_totalThinkingBlocks_eq, agg_totalThinkingBlocks_eq]
      exact (hs.map _).sum_eq
    · rw [agg_totalFilesAccessed_eq, agg_totalFilesAccessed_eq, unionF_perm (hs.map _)]
    · rw [agg_totalFilesModified_eq, agg_totalFilesModified_eq, unionF_perm (hs.map _)]
    · rw [agg_totalFilesCreated_eq, agg_totalFilesCreated_eq, unionF_perm (hs.map _)]
    · rw [agg_totalGitBranches_eq, agg_totalGitBranches_eq, unionF_perm (hs.map _)]
    · intro q
      rw [agg_toolUsage_eq, agg_toolUsage_eq]
      exact (hs.map _).sum_eq
    · intro q
      rw [agg_languageStats_eq, agg_languageStats_eq]
      exact (hs.map _).sum_eq
    · intro q
      rw [agg_projectStats_eq, agg_projectStats_eq]
      exact (hs.map _).sum_eq
    · intro q
      rw [agg_dailyActivity_eq, agg_dailyActivity_eq]
      exact (hs.map _).sum_eq
    · intro q
      rw [agg_hourlyActivity_eq, agg_hourlyActivity_eq]
      exact (hs.map _).sum_eq
  · refine ⟨?_, ?_, ?_, ?_, ?_, ?_, ?_, ?_, ?_, ?_, ?_, ?_⟩
    · rw [wd_totalSessions_eq, wd_totalSessions_eq]
      exact hw.length_eq
    · rw [wd_totalMessages_eq, wd_totalMessages_eq]
      exact (hw.map _).sum_eq
    · rw [wd_totalFilesModified_eq, wd_totalFilesModified_eq]
      exact (hw.map _).sum_eq
    · rw [wd_totalFilesCreated_eq, wd_totalFilesCreated_eq]
      exact (hw.map _).sum_eq
    · rw [wd_totalLinesAdded_eq, wd_totalLinesAdded_eq]
      exact (hw.map _).sum_eq
    · rw [wd_totalLinesRemoved_eq, wd_totalLinesRemoved_eq]
      exact (hw.map _).sum_eq
    · rw [wd_totalToolCalls_eq, wd_totalToolCalls_eq]
      exact (hw.map _).sum_eq
    · intro q
      rw [wd_toolUsage_eq, wd_toolUsage_eq]
      exact (hw.map _).sum_eq
    · intro q
      rw [wd_languageStats_eq, wd_languageStats_eq]
      exact (hw.map _).sum_eq
    · intro q
      rw [wd_projectStats_eq, wd_projectStats_eq]
      exact (hw.map _).sum_eq
    · intro q
      rw [wd_dailyActivity_eq, wd_dailyActivity_eq]
      exact (hw.map _).sum_eq
    · intro q
      rw [wd_hourlyActivity_eq, wd_hourlyActivity_eq]
      exact (hw.map _).sum_eq

/-- A session record exercising the message, language, project, branch and
time fields, used to witness order independence. -/
def sessB : SessionStats :=
  { initialStats with
    messageCount := 3
    userMessages := 2
    languages := JsColl.arr ["Go"]
    startTime := some 3600000
    project := some "p1"
    gitBranch := some "main" }

/-- A session record exercising the file and tool fields, used to witness
order independence. -/
def sessC : SessionStats :=
  { initialStats with
    messageCount := 4
    filesAccessed := JsColl.arr [some "b"]
    toolUsage := [("Read", 2)] }

/-- A recorded session with most optional fields present, used to witness
order independence of the recorded-sessions fold. -/
def wdA : WDSession where
  messageCount := some 5
  filesModified := some ["a", "b"]
  filesCreated := some ["c"]
  linesAdded := some 10
  linesRemoved := some 4
  toolCalls := some ["Read", "Edit"]
  languages := some ["Go"]
  project := some "p"
  date := some "2024-01-01T10:00"
  timestamp := some 0

/-- A recorded session with most optional fields absent, used to witness
order independence of the recorded-sessions fold. -/
def wdB : WDSession where
  messageCount := some 2
  filesModified := none
  filesCreated := none
  linesAdded := none
  linesRemoved := none
  toolCalls := some ["Read"]
  languages := none
  project := some "p"
  date := none
  timestamp := none

/-- Claim C4 witness: swapping two concrete sessions (in both pipelines)
yields agreeing aggregates. -/
theorem aggregation_order_independent_witness :
    List.Perm [sessB, sessC] [sessC, sessB] ∧
    List.Perm [wdA, wdB] [wdB, wdA] ∧
    aggAgrees (aggregateStats 0 [sessB, sessC]) (aggregateStats 0 [sessC, sessB]) ∧
    wdAgrees (List.foldl (updateStats 0) initialWD [wdA, wdB])
      (List.foldl (updateStats 0) initialWD [wdB, wdA]) := by
  have hs : List.Perm [sessB, sessC] [sessC, sessB] := List.Perm.swap sessC sessB []
  have hw : List.Perm [wdA, wdB] [wdB, wdA] := List.Perm.swap wdB wdA []
  have h := aggregation_order_independent 0 [sessB, sessC] [sessC, sessB] hs
    [wdA, wdB] [wdB, wdA] hw
  exact ⟨hs, hw, h.1, h.2⟩

end Wrapped
